import Mathlib

/-!
Verification development for the fantasy-golf scoring core.

This file is a shallow embedding of the scoring and ranking computation of
the backend (`app/services/scoring.py`, `app/services/score_calculator.py`,
`app/services/data_sync.py`).  Python floats carrying point values are
modelled as integers: every point value in the system is produced by sums
of small integral literal constants, on which float arithmetic is exact
and agrees with integer arithmetic.  Database tables are modelled
as lists of rows; SQLAlchemy queries become list filters; Python dicts
become insertion-ordered association lists with overwrite-on-duplicate-key
semantics.
-/

namespace Masters

/-! ### Kernel-reducible string primitives

Core `String.toLower`, `String.replace`, `String.trim` do not reduce inside
`decide`, so the character-level operations the Python code uses are
re-implemented here over `String.data`. -/

/-- ASCII lower-casing of one character (`str.lower` on the data in this
system, which is ASCII). -/
def lowerChar (c : Char) : Char :=
  if 65 ≤ c.toNat ∧ c.toNat ≤ 90 then Char.ofNat (c.toNat + 32) else c

/-- `s.lower()` on ASCII data. -/
def strLower (s : String) : String := String.mk (s.data.map lowerChar)

/-- `s.strip()`: remove surrounding whitespace. -/
def strStrip (s : String) : String :=
  String.mk (((s.data.dropWhile Char.isWhitespace).reverse.dropWhile
    Char.isWhitespace).reverse)

/-- `s.replace("T", "")`: drop every occurrence of the single character. -/
def strDropChar (s : String) (c : Char) : String :=
  String.mk (s.data.filter (fun d => d ≠ c))

/-- `s.startswith(c)` for a one-character pattern. -/
def strStartsWith (s : String) (c : Char) : Bool :=
  match s.data with
  | [] => false
  | d :: _ => d = c

/-- `s[1:]`. -/
def strTail (s : String) : String := String.mk (s.data.drop 1)

/-- Model of Python `int(s)` on strings: strips surrounding whitespace,
accepts one optional leading sign, then decimal ASCII digits; `none` where
Python raises `ValueError`.  (Digit-grouping underscores and non-ASCII
digits, which CPython also accepts, are not modelled; no data in this
system carries them.) -/
def pythonInt (s : String) : Option Int :=
  let t := (strStrip s).data
  let (neg, core) :=
    match t with
    | '-' :: rest => (true, rest)
    | '+' :: rest => (false, rest)
    | _ => (false, t)
  if core = [] then none
  else if core.all Char.isDigit then
    let n : Nat := core.foldl (fun a c => a * 10 + (c.toNat - 48)) 0
    some (if neg then -(n : Int) else (n : Int))
  else none

/-- One per-round rule dictionary of `ScoringService.SCORING_RULES`
(scoring.py L24-53).  Absent keys are `none`. -/
structure RuleTable where
  winner : Option ℤ
  leader : Option ℤ
  top_5 : Option ℤ
  top_10 : Option ℤ
  top_25 : Option ℤ
  made_cut : Option ℤ
deriving Repr, DecidableEq

/-- `ScoringService.SCORING_RULES` (scoring.py L24-53); `SCORING_RULES.get(round_id, {})`
yields the all-`none` table for unknown rounds. -/
def SCORING_RULES : Nat → RuleTable
  | 1 => ⟨none, some 8, some 5, some 3, some 1, none⟩
  | 2 => ⟨none, some 12, some 8, some 5, some 3, some 1⟩
  | 3 => ⟨none, some 12, some 8, some 5, some 3, some 1⟩
  | 4 => ⟨some 15, some 12, some 8, some 5, some 3, some 1⟩
  | _ => ⟨none, none, none, none, none, none⟩

/-- Python truthiness of `rules.get("made_cut")` (scoring.py L116):
present and nonzero. -/
def madeCutTruthy (rules : RuleTable) : Bool :=
  match rules.made_cut with
  | some v => decide (v ≠ 0)
  | none => false

/-- Statuses treated as eliminated, lower-cased comparison
(scoring.py L91, L119). -/
def elimStatuses : List String := ["cut", "wd", "dq"]

/-- The position-parsing stage of `calculate_position_points`
(scoring.py L83-99): empty positions, the status strings cut/wd/dq
(case-insensitive), and strings that do not survive
`int(position.replace("T", "").strip())` all fall into the early
`return 0.0` paths, modelled as `none`. -/
def parsedPosition (p : String) : Option Int :=
  if p = "" then none
  else if strLower p ∈ elimStatuses then none
  else pythonInt (strStrip (strDropChar p 'T'))

/-- The tier chain of `calculate_position_points` (scoring.py L101-123)
applied to a successfully parsed numeric position. -/
def tierPoints (pos : Int) (round_id : Nat) (is_winner : Bool)
    (status : Option String) : ℤ :=
  let rules := SCORING_RULES round_id
  if round_id = 4 ∧ is_winner = true ∧ pos = 1 then rules.winner.getD 15
  else if pos = 1 then rules.leader.getD 0
  else if pos ≤ 5 then rules.top_5.getD 0
  else if pos ≤ 10 then rules.top_10.getD 0
  else if pos ≤ 25 then rules.top_25.getD 0
  else if 2 ≤ round_id ∧ madeCutTruthy rules then
    match status with
    | none => rules.made_cut.getD 0
    | some st =>
      if st = "" then rules.made_cut.getD 0
      else if strLower st ∈ elimStatuses then 0
      else rules.made_cut.getD 0
  else 0

/-- `ScoringService.calculate_position_points` (scoring.py L65-123).
Positions reaching this service from leaderboard rows are strings (or
absent); the `isinstance(position, int)` fast path is unreachable from
leaderboard data and is not modelled. -/
def calculate_position_points (position : Option String) (round_id : Nat)
    (is_winner : Bool) (status : Option String) : ℤ :=
  match position with
  | none => 0
  | some p =>
    match parsedPosition p with
    | none => 0
    | some pos => tierPoints pos round_id is_winner status

example : calculate_position_points (some "1") 1 false none = 8 := by decide
example : calculate_position_points (some "T2") 1 false none = 5 := by decide
example : calculate_position_points (some "30") 2 false (some "complete") = 1 := by decide
example : calculate_position_points (some "20") 1 false (some "cut") = 1 := by decide
example : calculate_position_points (some "1") 4 true (some "complete") = 15 := by decide
example : calculate_position_points (some "1") 4 false (some "complete") = 12 := by decide
example : calculate_position_points (some "cut") 3 false none = 0 := by decide
example : calculate_position_points (some "40") 3 false (some "wd") = 0 := by decide
example : calculate_position_points (some "xx") 2 false none = 0 := by decide

/-! ### Python dicts

Insertion-ordered association lists: a later write to an existing key
overwrites the value in place (CPython dict semantics). -/

/-- `m[k] = v` on a Python dict: overwrite the binding in place when the
key is present, append otherwise. -/
def dictInsert : List (String × α) → String → α → List (String × α)
  | [], k, v => [(k, v)]
  | p :: rest, k, v =>
    if p.1 = k then (k, v) :: rest else p :: dictInsert rest k v

/-- `m.get(k)` on a Python dict. -/
def dictGet (m : List (String × α)) (k : String) : Option α :=
  (m.find? (fun p => p.1 = k)).map (fun p => p.2)

/-- Build a dict from a list of key-value pairs written in order. -/
def buildDict (pairs : List (String × α)) : List (String × α) :=
  pairs.foldl (fun m p => dictInsert m p.1 p.2) []

/-! ### Data model -/

/-- One row of `leaderboard_data["leaderboardRows"]` (external interface
§6 of the design: playerId, position, status, currentRoundScore).  Fields
are optional where the code reads them with `row.get(...)`. -/
structure LBRow where
  playerId : String
  position : Option String
  status : Option String
  currentRoundScore : Option String
deriving Repr, DecidableEq

/-- The `Entry` model (models/entry.py): six nominal player ids, the two
index-aligned rebuy arrays (JSON columns defaulting to `[]`), and the two
weekend-bonus booleans. -/
structure Entry where
  id : Nat
  player1_id : String
  player2_id : String
  player3_id : String
  player4_id : String
  player5_id : String
  player6_id : String
  rebuy_original_player_ids : List String
  rebuy_player_ids : List String
  weekend_bonus_earned : Bool
  weekend_bonus_forfeited : Bool
deriving Repr, DecidableEq

/-- The list `[entry.player1_id, ..., entry.player6_id]` built at
scoring.py L162-169 and L364-371. -/
def nominalIds (e : Entry) : List String :=
  [e.player1_id, e.player2_id, e.player3_id,
   e.player4_id, e.player5_id, e.player6_id]

/-- One hole of a scorecard record; the code reads
`hole_data.get("holeScore")` / `hole_data.get("par")`. -/
structure HoleData where
  holeScore : Option Int
  par : Option Int
deriving Repr, DecidableEq

/-- One per-round scorecard record (`scorecard.get("roundId")`,
`scorecard.get("holes", {})`); hole numbers are the dict keys, already
parsed to naturals (`int(hole_num)` at scoring.py L341). -/
structure Scorecard where
  roundId : Nat
  holes : List (Nat × HoleData)
deriving Repr, DecidableEq

/-- `scorecard_data`: dict player-id → list of scorecard records. -/
abbrev ScorecardData := List (String × List Scorecard)

/-- `ScoringService.get_player_position` (scoring.py L125-135): the
`position` field of the first leaderboard row with this player id, `none`
when the player is absent (or the row has no position). -/
def get_player_position (lb : List LBRow) (player_id : String) :
    Option String :=
  match lb.find? (fun row => row.playerId = player_id) with
  | some row => row.position
  | none => none

/-- `ScoringService.get_player_status` (scoring.py L137-147): the `status`
field of the first row with this player id, defaulting to `"unknown"`. -/
def get_player_status (lb : List LBRow) (player_id : String) : String :=
  match lb.find? (fun row => row.playerId = player_id) with
  | some row => row.status.getD "unknown"
  | none => "unknown"

/-- The rebuy substitution applied identically at scoring.py L171-181
(base points) and L253-261 (bonus detection): for rounds ≥ 3 with both
rebuy arrays non-empty, build the original→rebuy dict from the zipped
arrays and replace each nominal slot through it; otherwise the nominal
ids unmodified. -/
def effectivePlayerIds (e : Entry) (round_id : Nat) : List String :=
  let player_ids := nominalIds e
  if 3 ≤ round_id ∧ e.rebuy_player_ids ≠ [] ∧
      e.rebuy_original_player_ids ≠ [] then
    let rebuy_map :=
      buildDict (e.rebuy_original_player_ids.zip e.rebuy_player_ids)
    player_ids.map (fun pid => (dictGet rebuy_map pid).getD pid)
  else player_ids

/-- One slot of the per-entry breakdown built at scoring.py L216-221. -/
structure SlotScore where
  player_id : String
  position : Option String
  status : String
  points : ℤ
deriving Repr, DecidableEq

/-- The first leaderboard row with position `"1"` and status `"complete"`
(winner determination of scoring.py L189-195). -/
def winnerId (lb : List LBRow) : Option String :=
  (lb.find? (fun row =>
    row.position = some "1" ∧ row.status = some "complete")).map
    (fun row => row.playerId)

/-- `ScoringService.calculate_daily_base_points` (scoring.py L149-227):
total base points and the per-slot breakdown. -/
def calculate_daily_base_points (e : Entry) (lb : List LBRow)
    (round_id : Nat) : ℤ × List SlotScore :=
  let player_ids := effectivePlayerIds e round_id
  let is_final_round := round_id = 4
  let winner_id : Option String := if is_final_round then winnerId lb else none
  let slots := player_ids.map (fun pid =>
    let position := get_player_position lb pid
    let status := get_player_status lb pid
    let is_winner : Bool := is_final_round ∧ winner_id = some pid
    let points := calculate_position_points position round_id is_winner
      (some status)
    SlotScore.mk pid position status points)
  ((slots.map (fun s => s.points)).sum, slots)

/-! ### Bonus detection -/

/-- A detected bonus dict as appended by
`ScoringService.calculate_bonus_points`; `hole` is present only for the
scorecard bonuses. -/
structure Bonus where
  player_id : Option String
  bonus_type : String
  points : ℤ
  hole : Option Nat
deriving Repr, DecidableEq

/-- A `BonusPoint` table row (models/bonus_point.py), keyed by
(entry, round, type, player, hole). -/
structure BPRow where
  entry_id : Nat
  round_id : Nat
  bonus_type : String
  points : ℤ
  player_id : Option String
  hole : Option Nat
deriving Repr, DecidableEq

/-- The two manually-entered bonus types (scoring.py L268, L444). -/
def manualTypes : List String := ["gir_leader", "fairways_leader"]

/-- The manual-bonus query of scoring.py L265-269: `BonusPoint` rows for
this entry and round whose type is manual. -/
def manualBonusRows (table : List BPRow) (entry_id round_id : Nat) :
    List BPRow :=
  table.filter (fun r =>
    r.entry_id = entry_id ∧ r.round_id = round_id ∧
    r.bonus_type ∈ manualTypes)

/-- Re-attachment of manual bonuses (scoring.py L271-280): each persisted
manual row whose player (`str(manual_bonus.player_id)`, i.e. `"None"` for
a null column) is in the entry's effective player set becomes a bonus
dict; no hole key. -/
def manualBonuses (player_ids : List String) (table : List BPRow)
    (entry_id round_id : Nat) : List Bonus :=
  (manualBonusRows table entry_id round_id).filterMap (fun r =>
    let pstr := r.player_id.getD "None"
    if pstr ∈ player_ids then
      some (Bonus.mk (some pstr) r.bonus_type r.points none)
    else none)

/-- The inline current-round-score parser of scoring.py L295-303: `"-N"`,
`"+N"`, `"E"`; anything else (or an unparseable digit part) is skipped. -/
def parseBonusScore (s : String) : Option Int :=
  if strStartsWith s '-' then (pythonInt (strTail s)).map (fun n => -n)
  else if strStartsWith s '+' then pythonInt (strTail s)
  else if s = "E" then some 0
  else none

/-- The low-score-of-day scan of scoring.py L288-309: among rows with
status exactly `"complete"` and a parseable score, keep the first row
attaining the strictly lowest score. -/
def lowScoreScan (rows : List LBRow) : Option (Int × String) :=
  rows.foldl (fun best row =>
    if row.status = some "complete" then
      match parseBonusScore (row.currentRoundScore.getD "") with
      | none => best
      | some score =>
        match best with
        | none => some (score, row.playerId)
        | some b => if score < b.1 then some (score, row.playerId) else some b
    else best) none

/-- The per-hole scorecard bonuses of scoring.py L327-358, in hole order:
hole-in-one (1 on a par 3) takes priority over double eagle (−3) over
eagle (−2); holes with a falsy (absent or zero) score or par are
skipped. -/
def scorecardHoleBonuses (pid : String) (holes : List (Nat × HoleData)) :
    List Bonus :=
  holes.filterMap (fun h =>
    match h.2.holeScore, h.2.par with
    | some hs, some par =>
      if hs ≠ 0 ∧ par ≠ 0 then
        let score_to_par := hs - par
        if hs = 1 ∧ par = 3 then
          some (Bonus.mk (some pid) "hole_in_one" 3 (some h.1))
        else if score_to_par = -3 then
          some (Bonus.mk (some pid) "double_eagle" 3 (some h.1))
        else if score_to_par = -2 then
          some (Bonus.mk (some pid) "eagle" 2 (some h.1))
        else none
      else none
    | _, _ => none)

/-- The per-player body of the loop at scoring.py L312-358: the low-score
bonus when this player is the scan's winner, then the scorecard bonuses of
this player's records for the round. -/
def playerBonuses (pid : String) (low_score_player : Option String)
    (sc : ScorecardData) (round_id : Nat) : List Bonus :=
  (if low_score_player = some pid then
    [Bonus.mk (some pid) "low_score" 1 none]
   else []) ++
  ((dictGet sc pid).getD []).flatMap (fun card =>
    if card.roundId = round_id then scorecardHoleBonuses pid card.holes
    else [])

/-- The `all_made_cut` loop of scoring.py L373-379: every one of the six
original players has a status other than cut/wd/dq (exact string
comparison, as in the source). -/
def allOriginalsMadeCut (e : Entry) (lb : List LBRow) : Bool :=
  (nominalIds e).all (fun pid =>
    !decide (get_player_status lb pid ∈ ["cut", "wd", "dq"]))

/-- The weekend all-make-cut block of scoring.py L360-388: on round 3, for
a non-forfeited entry whose six original players all have a status other
than cut/wd/dq, award the 5-point team bonus once and set
`weekend_bonus_earned`.  Returns the appended bonuses and the new value of
the flag. -/
def weekendResult (e : Entry) (lb : List LBRow) (round_id : Nat) :
    List Bonus × Bool :=
  if round_id = 3 ∧ ¬e.weekend_bonus_forfeited then
    let all_made_cut := allOriginalsMadeCut e lb
    if all_made_cut ∧ ¬e.weekend_bonus_earned then
      ([Bonus.mk none "all_make_cut" 5 none], true)
    else ([], e.weekend_bonus_earned)
  else ([], e.weekend_bonus_earned)

/-- `ScoringService.calculate_bonus_points` (scoring.py L229-390): the
list of bonus dicts in append order (manual, then per-player, then
weekend) and the resulting `weekend_bonus_earned` flag. -/
def calculate_bonus_points (e : Entry) (lb : List LBRow)
    (sc : ScorecardData) (round_id : Nat) (table : List BPRow) :
    List Bonus × Bool :=
  let player_ids := effectivePlayerIds e round_id
  let manual := manualBonuses player_ids table e.id round_id
  let low_score_player := (lowScoreScan lb).map (fun b => b.2)
  let per := player_ids.flatMap (fun pid =>
    playerBonuses pid low_score_player sc round_id)
  let wk := weekendResult e lb round_id
  (manual ++ per ++ wk.1, wk.2)

/-! ### Daily score persistence -/

/-- A `DailyScore` row (models/daily_score.py); `details` is the
structured breakdown saved at scoring.py L431-434 / L493-496. -/
structure DSRow where
  entry_id : Nat
  round_id : Nat
  base_points : ℤ
  bonus_points : ℤ
  total_points : ℤ
  details_base : List SlotScore
  details_bonuses : List Bonus
deriving Repr, DecidableEq

/-- The persistent state touched by
`ScoringService.calculate_and_save_daily_score`: the entry row (its
weekend flag is mutable), the `DailyScore` table and the `BonusPoint`
table. -/
structure DBState where
  entry : Entry
  daily_scores : List DSRow
  bonus_rows : List BPRow
deriving Repr, DecidableEq

/-- Update of the first row matching the (entry, round) key, in place
(the ORM `first()` row update of scoring.py L426-436). -/
def replaceFirstDS (rows : List DSRow) (eid rid : Nat) (new : DSRow) :
    List DSRow :=
  match rows with
  | [] => []
  | r :: rest =>
    if r.entry_id = eid ∧ r.round_id = rid then new :: rest
    else r :: replaceFirstDS rest eid rid new

/-- The duplicate check of scoring.py L451-462 / L506-517: same entry,
round, type and player; the hole is compared only when the fresh bonus
carries one. -/
def bonusRowMatches (r : BPRow) (eid rid : Nat) (b : Bonus) : Bool :=
  decide (r.entry_id = eid) && decide (r.round_id = rid) &&
  decide (r.bonus_type = b.bonus_type) &&
  decide (r.player_id = b.player_id) &&
  (match b.hole with
   | some h => decide (r.hole = some h)
   | none => true)

/-- The insertion loop of scoring.py L448-481 / L503-535: append each
non-manual fresh bonus unless an equal row already exists (the session
autoflushes, so a row appended earlier in the same loop is visible to the
duplicate check). -/
def insertAutoBonuses (rows : List BPRow) (eid rid : Nat) :
    List Bonus → List BPRow
  | [] => rows
  | b :: rest =>
    let rows' :=
      if b.bonus_type ∈ manualTypes then rows
      else if rows.any (fun r => bonusRowMatches r eid rid b) then rows
      else rows ++
        [BPRow.mk eid rid b.bonus_type b.points b.player_id b.hole]
    insertAutoBonuses rows' eid rid rest

/-- `ScoringService.calculate_and_save_daily_score` (scoring.py L392-538):
computes base and bonus points, upserts the `DailyScore` row keyed by
(entry, round), and reconciles the `BonusPoint` table — on the update path
all non-manual rows for the key are deleted first (scoring.py L441-445),
then fresh non-manual bonuses are inserted with the duplicate check.
Returns the new state and the saved row. -/
def calculate_and_save_daily_score (st : DBState) (lb : List LBRow)
    (sc : ScorecardData) (round_id : Nat) : DBState × DSRow :=
  let e := st.entry
  let base := calculate_daily_base_points e lb round_id
  let bres := calculate_bonus_points e lb sc round_id st.bonus_rows
  let bonuses := bres.1
  let bonus_total := (bonuses.map (fun b => b.points)).sum
  let total_points := base.1 + bonus_total
  let e' := { e with weekend_bonus_earned := bres.2 }
  let new_row : DSRow :=
    DSRow.mk e.id round_id base.1 bonus_total total_points base.2 bonuses
  match st.daily_scores.find? (fun r =>
      r.entry_id = e.id ∧ r.round_id = round_id) with
  | some _ =>
    let ds := replaceFirstDS st.daily_scores e.id round_id new_row
    let afterDelete := st.bonus_rows.filter (fun r =>
      ¬(r.entry_id = e.id ∧ r.round_id = round_id ∧
        r.bonus_type ∉ manualTypes))
    let bonus := insertAutoBonuses afterDelete e.id round_id bonuses
    (DBState.mk e' ds bonus, new_row)
  | none =>
    let ds := st.daily_scores ++ [new_row]
    let bonus := insertAutoBonuses st.bonus_rows e.id round_id bonuses
    (DBState.mk e' ds bonus, new_row)

/-! ### Round orchestrator (score_calculator.py) -/

/-- A `ScoreSnapshot` row as far as the orchestrator consumes it. -/
structure SSnap where
  round_id : Nat
  timestamp : Nat
  leaderboard_data : List LBRow
  scorecard_data : ScorecardData
deriving Repr, DecidableEq

/-- Accumulator of the maximal-timestamp scan behind
`order_by(timestamp.desc()).first()`. -/
def latestPick (best : Option SSnap) (s : SSnap) : Option SSnap :=
  match best with
  | none => some s
  | some b => if b.timestamp < s.timestamp then some s else some b

/-- The `order_by(timestamp.desc()).first()` query of
score_calculator.py L57-60: a snapshot for the round with maximal
timestamp (the earliest such on a tie). -/
def latestSnapshot (snapshots : List SSnap) (round_id : Nat) :
    Option SSnap :=
  (snapshots.filter (fun s => s.round_id = round_id)).foldl latestPick none

/-- The `results` dictionary of
`ScoreCalculatorService.calculate_scores_for_tournament`
(score_calculator.py L103-110), extended with whether the ranking-snapshot
capture step was reached.  Error strings are modelled as (entry id,
exception message) pairs. -/
structure CalcResults where
  success : Bool
  message : Option String
  entries_processed : Nat
  entries_updated : Nat
  errors : List (Nat × String)
  capture_ran : Bool
deriving Repr, DecidableEq

/-- The body of the per-entry loop (score_calculator.py L118-135): a
successful calculation bumps both counters; an exception bumps the
processed counter and appends to the error list. -/
def entryLoopStep (entryCalc : Nat → Except String ℤ)
    (acc : CalcResults) (eid : Nat) : CalcResults :=
  match entryCalc eid with
  | Except.ok _ =>
    { acc with
      entries_processed := acc.entries_processed + 1,
      entries_updated := acc.entries_updated + 1 }
  | Except.error m =>
    { acc with
      entries_processed := acc.entries_processed + 1,
      errors := acc.errors ++ [(eid, m)] }

/-- `ScoreCalculatorService.calculate_scores_for_tournament`
(score_calculator.py L30-163) for a given round: structured failure when
no snapshot exists for the round; otherwise one guarded call per entry —
a per-entry exception (modelled by `entryCalc` returning `Except.error`)
is appended to the error list and the loop continues — followed by the
ranking-snapshot capture whenever `results["success"]` is still true.
The per-entry score computation is abstracted by `entryCalc` because the
exceptions this claim is about escape from arbitrary layers below. -/
def calculate_scores_for_tournament (snapshots : List SSnap)
    (round_id : Nat) (entries : List Nat)
    (entryCalc : Nat → Except String ℤ) : CalcResults :=
  match latestSnapshot snapshots round_id with
  | none =>
    CalcResults.mk false
      (some "No score snapshot found. Please sync tournament data first.")
      0 0 [] false
  | some _ =>
    let init := CalcResults.mk true none 0 0 [] false
    let r := entries.foldl (entryLoopStep entryCalc) init
    if r.success then { r with capture_ran := true } else r

/-! ### Ranking snapshot capture (score_calculator.py L212-292) -/

/-- A `RankingSnapshot` row (models/ranking_snapshot.py). -/
structure RankRow where
  entry_id : Nat
  round_id : Nat
  position : Nat
  total_points : ℤ
  points_behind_leader : ℤ
deriving Repr, DecidableEq

/-- Running total of an entry: sum of `total_points` over all its
`DailyScore` rows (score_calculator.py L243-248). -/
def entryTotal (ds : List DSRow) (eid : Nat) : ℤ :=
  ((ds.filter (fun r => r.entry_id = eid)).map
    (fun r => r.total_points)).sum

/-- Stable insertion of one element into a list already sorted descending
by total: placed before the first element with total ≤ its own, so
earlier-listed entries stay ahead on ties. -/
def insertDesc (x : Nat × ℤ) : List (Nat × ℤ) → List (Nat × ℤ)
  | [] => [x]
  | y :: ys => if y.2 ≤ x.2 then x :: y :: ys else y :: insertDesc x ys

/-- `leaderboard_data.sort(key=total_points, reverse=True)`
(score_calculator.py L256): a stable descending sort.  A stable sort for a
fixed comparator has a unique output, so this insertion sort computes
exactly what Python's Timsort does. -/
def sortDescBy : List (Nat × ℤ) → List (Nat × ℤ)
  | [] => []
  | x :: xs => insertDesc x (sortDescBy xs)

/-- The row-construction loop of score_calculator.py L263-284:
`enumerate(..., start=1)` positions, and
`points_behind = leader_points - total_points if leader_points > 0 else 0`. -/
def mkRankRows (round_id : Nat) (leader_points : ℤ) :
    Nat → List (Nat × ℤ) → List RankRow
  | _, [] => []
  | pos, x :: xs =>
    RankRow.mk x.1 round_id pos x.2
        (if 0 < leader_points then leader_points - x.2 else 0) ::
      mkRankRows round_id leader_points (pos + 1) xs

/-- `ScoreCalculatorService._capture_ranking_snapshot`
(score_calculator.py L212-292): recompute every entry's running total,
stable-sort descending, assign positions 1..N, and append one new
`RankingSnapshot` row per entry to the table. -/
def captureRankingSnapshot (round_id : Nat) (entries : List Nat)
    (ds : List DSRow) (existing : List RankRow) : List RankRow :=
  if entries = [] then existing
  else
    let leaderboard_data := entries.map (fun eid => (eid, entryTotal ds eid))
    let sorted := sortDescBy leaderboard_data
    let leader_points := ((sorted.head?).map (fun x => x.2)).getD 0
    existing ++ mkRankRows round_id leader_points 1 sorted

/-! ### Scorecard-change detector (data_sync.py) -/

/-- `DataSyncService._parse_round_score` (data_sync.py L44-69): `"-N"`,
`"+N"`, `"E"`, or a bare integer; `none` for empty or unparseable
strings. -/
def parse_round_score (s : String) : Option Int :=
  if s = "" then none
  else if strStartsWith s '-' then (pythonInt (strTail s)).map (fun n => -n)
  else if strStartsWith s '+' then pythonInt (strTail s)
  else if s = "E" then some 0
  else pythonInt s

/-- One element of the list returned by `detect_scorecard_changes`
(data_sync.py L138-143). -/
structure FlagRec where
  player_id : String
  previous_score : Int
  current_score : Int
  improvement : Int
deriving Repr, DecidableEq

/-- Statuses skipped by the change detector (data_sync.py L113). -/
def skipStatuses : List String := ["wd", "dq", "cut"]

/-- One iteration of the `current_scores` build (data_sync.py L107-116):
rows whose lower-cased status is withdrawn/disqualified/cut or whose
score string is empty are skipped; the rest map player id to the parsed
score. -/
def currentScoresStep (m : List (String × Option Int)) (row : LBRow) :
    List (String × Option Int) :=
  let status := strLower (row.status.getD "")
  let score_str := row.currentRoundScore.getD ""
  if status ∈ skipStatuses ∨ score_str = "" then m
  else dictInsert m row.playerId (parse_round_score score_str)

/-- The `current_scores` dict of data_sync.py L107-116. -/
def buildCurrentScores (rows : List LBRow) : List (String × Option Int) :=
  rows.foldl currentScoresStep []

/-- One iteration of the `previous_scores` build (data_sync.py
L118-122): only the empty score string is skipped. -/
def previousScoresStep (m : List (String × Option Int)) (row : LBRow) :
    List (String × Option Int) :=
  let score_str := row.currentRoundScore.getD ""
  if score_str = "" then m
  else dictInsert m row.playerId (parse_round_score score_str)

/-- The `previous_scores` dict of data_sync.py L118-122. -/
def buildPreviousScores (rows : List LBRow) : List (String × Option Int) :=
  rows.foldl previousScoresStep []

/-- `DataSyncService.detect_scorecard_changes` (data_sync.py L71-150),
applied to the current leaderboard and the immediately preceding
snapshot's leaderboard for the same round: flag every player whose
improvement (previous − current) is at least 2. -/
def detect_scorecard_changes (current previous : List LBRow) :
    List FlagRec :=
  let current_scores := buildCurrentScores current
  let previous_scores := buildPreviousScores previous
  current_scores.filterMap (fun kv =>
    match kv.2 with
    | none => none
    | some current_score =>
      match dictGet previous_scores kv.1 with
      | none => none
      | some none => none
      | some (some previous_score) =>
        if 2 ≤ previous_score - current_score then
          some (FlagRec.mk kv.1 previous_score current_score
            (previous_score - current_score))
        else none)

/-! ### Sequences of bonus-detection calls -/

/-- The inputs of one `calculate_bonus_points` call. -/
structure DetectInput where
  round_id : Nat
  lb : List LBRow
  sc : ScorecardData
  table : List BPRow
deriving Repr, DecidableEq

/-- The entry state after one bonus-detection call: the only entry field
the detector mutates (scoring.py L388) is `weekend_bonus_earned`. -/
def detectStep (e : Entry) (i : DetectInput) : Entry :=
  { e with weekend_bonus_earned :=
      (calculate_bonus_points e i.lb i.sc i.round_id i.table).2 }

/-- Number of false→true transitions of `weekend_bonus_earned` along a
sequence of bonus-detection calls. -/
def earnedFlips : Entry → List DetectInput → Nat
  | _, [] => 0
  | e, i :: rest =>
    (if e.weekend_bonus_earned = false ∧
        (detectStep e i).weekend_bonus_earned = true then 1 else 0) +
      earnedFlips (detectStep e i) rest

/-- The condition under which the weekend block of
`calculate_bonus_points` awards the `all_make_cut` bonus, written as a
predicate: round 3, bonus neither forfeited nor already earned, and all
six original players with a status other than cut/wd/dq. -/
def weekendEligible (e : Entry) (lb : List LBRow) (r : Nat) : Prop :=
  r = 3 ∧ e.weekend_bonus_forfeited = false ∧
  e.weekend_bonus_earned = false ∧
  ∀ pid ∈ nominalIds e, get_player_status lb pid ∉ ["cut", "wd", "dq"]

instance weekendEligibleDec (e : Entry) (lb : List LBRow) (r : Nat) :
    Decidable (weekendEligible e lb r) :=
  inferInstanceAs (Decidable (_ ∧ _ ∧ _ ∧ _))

/-! ### Concrete scenarios used by closed theorems -/

/-- An entry with two rebuys: originals b and e replaced by r1 and r2. -/
def rebuyEntry : Entry :=
  Entry.mk 3 "a" "b" "c" "d" "e" "f" ["b", "e"] ["r1", "r2"] false false

/-- An entry with no rebuys whose six players all survive round 3: the
weekend-bonus award scenario. -/
def weekendEntry : Entry :=
  Entry.mk 1 "a" "b" "c" "d" "e" "f" [] [] false false

/-- Round-3 leaderboard for `weekendEntry`: all six players complete at
position 40, no parseable round scores. -/
def weekendLB : List LBRow :=
  ["a", "b", "c", "d", "e", "f"].map (fun p =>
    LBRow.mk p (some "40") (some "complete") none)

/-- First round-3 calculation for `weekendEntry` on an empty database. -/
def weekendCall1 : DBState × DSRow :=
  calculate_and_save_daily_score (DBState.mk weekendEntry [] []) weekendLB
    [] 3

/-- Second, identical round-3 calculation, run on the state the first one
produced. -/
def weekendCall2 : DBState × DSRow :=
  calculate_and_save_daily_score weekendCall1.1 weekendLB [] 3

/-- A per-entry computation for the orchestrator scenarios: entry 1
succeeds, every other entry raises. -/
def c8Calc : Nat → Except String ℤ := fun eid =>
  if eid = 1 then Except.ok 6 else Except.error "boom"

/-- A persisted manual bonus row (gir_leader for player a of entry 1,
round 2). -/
def manualRow : BPRow := BPRow.mk 1 2 "gir_leader" 1 (some "a") none

/-- A database state holding an existing round-2 score row and the manual
bonus row for entry 1. -/
def manualState : DBState :=
  DBState.mk weekendEntry [DSRow.mk 1 2 0 0 0 [] []] [manualRow]

/-- Round-4 leaderboard with a confirmed winner: player x holds position
1 with status complete. -/
def finalLB : List LBRow :=
  [LBRow.mk "x" (some "1") (some "complete") none,
   LBRow.mk "y" (some "2") (some "complete") none]

/-- Round-4 leaderboard whose leader has not finished: player x holds
position 1 but status is still in-progress. -/
def finalLBPlaying : List LBRow :=
  [LBRow.mk "x" (some "1") (some "playing") none,
   LBRow.mk "y" (some "2") (some "complete") none]

/-- Entry holding the round-4 leader in slot 1. -/
def finalEntry : Entry :=
  Entry.mk 2 "x" "y" "y" "y" "y" "y" [] [] false false

/-! ## Supporting lemmas -/

theorem cpp_parsed_some {p : String} {n : Int}
    (h : parsedPosition p = some n) (r : Nat) (w : Bool)
    (st : Option String) :
    calculate_position_points (some p) r w st = tierPoints n r w st := by
  simp [calculate_position_points, h]

theorem cpp_parsed_none {p : String} (h : parsedPosition p = none) (r : Nat)
    (w : Bool) (st : Option String) :
    calculate_position_points (some p) r w st = 0 := by
  simp [calculate_position_points, h]

theorem elim_ne_empty {st : String} (h : strLower st ∈ elimStatuses) :
    st ≠ "" := by
  rintro rfl
  revert h
  decide

/-- Round 1 has no made-cut tier: every parsed position beyond 25 falls
through the whole chain. -/
theorem tierPoints_round1_gt25 {n : Int} (h : 25 < n) (w : Bool)
    (st : Option String) : tierPoints n 1 w st = 0 := by
  unfold tierPoints
  rw [if_neg (by rintro ⟨h4, _⟩; omega), if_neg (by omega),
    if_neg (by omega), if_neg (by omega), if_neg (by omega),
    if_neg (by rintro ⟨h2, _⟩; omega)]

/-- Rounds 2-4: a parsed position beyond 25 with a status that is not a
cut/wd/dq string lands in the made-cut tier, worth 1. -/
theorem tierPoints_madecut {r : Nat} (hr : r = 2 ∨ r = 3 ∨ r = 4)
    {n : Int} (h : 25 < n) (w : Bool) {st : String} (hst : st ≠ "")
    (hst2 : strLower st ∉ elimStatuses) :
    tierPoints n r w (some st) = 1 := by
  obtain rfl | rfl | rfl := hr <;>
  · unfold tierPoints
    rw [if_neg (by rintro ⟨_, _, hn⟩; omega), if_neg (by omega),
      if_neg (by omega), if_neg (by omega), if_neg (by omega),
      if_pos ⟨by norm_num, by decide⟩]
    simp [hst, hst2, SCORING_RULES]

/-- Any round: a parsed position beyond 25 with a cut/wd/dq status scores
0 (in rounds 2-4 via the status test of the made-cut branch, elsewhere
because the chain is exhausted). -/
theorem tierPoints_gt25_elim {r : Nat} {n : Int} (h : 25 < n) (w : Bool)
    {st : String} (hst : strLower st ∈ elimStatuses) :
    tierPoints n r w (some st) = 0 := by
  have hne : st ≠ "" := elim_ne_empty hst
  unfold tierPoints
  rw [if_neg (by rintro ⟨_, _, hn⟩; omega), if_neg (by omega),
    if_neg (by omega), if_neg (by omega), if_neg (by omega)]
  split_ifs with hmc
  · simp [hne, hst]
  · rfl

/-- A parsed position at most 25 never reaches the made-cut branch, so the
status argument is irrelevant there. -/
theorem tierPoints_le25_status_irrelevant {n : Int} (h : n ≤ 25) (r : Nat)
    (w : Bool) (st st' : Option String) :
    tierPoints n r w st = tierPoints n r w st' := by
  unfold tierPoints
  split_ifs <;> rfl

/-- Position 1 in round 4: winner value when the winner flag is set,
ordinary leader value otherwise, for every status. -/
theorem tierPoints_one_round4 (w : Bool) (st : Option String) :
    tierPoints 1 4 w st = if w then 15 else 12 := by
  cases w <;> simp [tierPoints, SCORING_RULES]

theorem dictGet_nil (k : String) : dictGet ([] : List (String × α)) k = none :=
  rfl

theorem dictGet_dictInsert_self (m : List (String × α)) (k : String)
    (v : α) : dictGet (dictInsert m k v) k = some v := by
  induction m with
  | nil => simp [dictInsert, dictGet, List.find?]
  | cons p rest ih =>
    by_cases h : p.1 = k
    · simp [dictInsert, h, dictGet, List.find?]
    · simp only [dictInsert, if_neg h]
      simpa [dictGet, List.find?, h] using ih

theorem dictGet_dictInsert_ne (m : List (String × α)) {k k' : String}
    (v : α) (h : k' ≠ k) :
    dictGet (dictInsert m k v) k' = dictGet m k' := by
  have hkk : k ≠ k' := fun hh => h hh.symm
  induction m with
  | nil => simp [dictInsert, dictGet, List.find?, hkk]
  | cons p rest ih =>
    by_cases hp : p.1 = k
    · have hp2 : p.1 ≠ k' := by rw [hp]; exact hkk
      simp only [dictInsert, if_pos hp]
      simp [dictGet, List.find?, hkk, hp2]
    · by_cases hp' : p.1 = k'
      · simp only [dictInsert, if_neg hp]
        simp [dictGet, List.find?, hp']
      · simp only [dictInsert, if_neg hp]
        simpa [dictGet, List.find?, hp'] using ih

theorem dictGet_foldl_not_mem (pairs : List (String × α))
    (m : List (String × α)) {k : String}
    (h : k ∉ pairs.map Prod.fst) :
    dictGet (pairs.foldl (fun acc p => dictInsert acc p.1 p.2) m) k =
      dictGet m k := by
  induction pairs generalizing m with
  | nil => rfl
  | cons p rest ih =>
    simp only [List.map_cons, List.mem_cons] at h
    push_neg at h
    simp only [List.foldl_cons]
    rw [ih _ h.2, dictGet_dictInsert_ne _ _ h.1]

theorem dictGet_buildDict_not_mem (pairs : List (String × α)) {k : String}
    (h : k ∉ pairs.map Prod.fst) : dictGet (buildDict pairs) k = none := by
  unfold buildDict
  rw [dictGet_foldl_not_mem pairs [] h, dictGet_nil]

theorem dictGet_foldl_mem (pairs : List (String × α))
    (m : List (String × α)) {k : String} {v : α}
    (hnd : (pairs.map Prod.fst).Nodup) (hmem : (k, v) ∈ pairs) :
    dictGet (pairs.foldl (fun acc p => dictInsert acc p.1 p.2) m) k =
      some v := by
  induction pairs generalizing m with
  | nil => cases hmem
  | cons p rest ih =>
    simp only [List.map_cons, List.nodup_cons] at hnd
    simp only [List.foldl_cons]
    rcases List.mem_cons.mp hmem with heq | htail
    · subst heq
      have hnotin : k ∉ rest.map Prod.fst := by
        simpa using hnd.1
      rw [dictGet_foldl_not_mem rest _ hnotin, dictGet_dictInsert_self]
    · exact ih _ hnd.2 htail

theorem dictGet_buildDict_mem (pairs : List (String × α)) {k : String}
    {v : α} (hnd : (pairs.map Prod.fst).Nodup) (hmem : (k, v) ∈ pairs) :
    dictGet (buildDict pairs) k = some v :=
  dictGet_foldl_mem pairs [] hnd hmem

theorem effectivePlayerIds_length (e : Entry) (r : Nat) :
    (effectivePlayerIds e r).length = 6 := by
  unfold effectivePlayerIds nominalIds
  split_ifs <;> simp

theorem allOriginalsMadeCut_iff (e : Entry) (lb : List LBRow) :
    allOriginalsMadeCut e lb = true ↔
      ∀ pid ∈ nominalIds e,
        get_player_status lb pid ∉ ["cut", "wd", "dq"] := by
  simp [allOriginalsMadeCut]

/-- The bonus list appended by the weekend block is the singleton
`all_make_cut` bonus exactly under `weekendEligible`. -/
theorem weekendResult_fst (e : Entry) (lb : List LBRow) (r : Nat) :
    (weekendResult e lb r).1 =
      if weekendEligible e lb r then [Bonus.mk none "all_make_cut" 5 none]
      else [] := by
  unfold weekendResult
  by_cases h1 : r = 3 ∧ ¬e.weekend_bonus_forfeited = true
  · rw [if_pos h1]
    by_cases h3 : allOriginalsMadeCut e lb = true
    · by_cases h4 : e.weekend_bonus_earned = true
      · have hne : ¬weekendEligible e lb r := by
          rintro ⟨_, _, he, _⟩
          rw [he] at h4
          exact Bool.false_ne_true h4
        rw [if_neg (by simp [h4]), if_neg hne]
      · have hel : weekendEligible e lb r :=
          ⟨h1.1, by simpa using h1.2, by simpa using h4,
           (allOriginalsMadeCut_iff e lb).mp h3⟩
        rw [if_pos ⟨h3, h4⟩, if_pos hel]
    · have hne : ¬weekendEligible e lb r := fun hel =>
        h3 ((allOriginalsMadeCut_iff e lb).mpr hel.2.2.2)
      rw [if_neg (by simp [h3]), if_neg hne]
  · have hne : ¬weekendEligible e lb r := by
      rintro ⟨he1, he2, _, _⟩
      exact h1 ⟨he1, by simp [he2]⟩
    rw [if_neg h1, if_neg hne]

/-- The flag value returned by the weekend block: true exactly when it
was already true or the entry is eligible now. -/
theorem weekendResult_snd (e : Entry) (lb : List LBRow) (r : Nat) :
    ((weekendResult e lb r).2 = true) ↔
      (e.weekend_bonus_earned = true ∨ weekendEligible e lb r) := by
  unfold weekendResult
  by_cases h1 : r = 3 ∧ ¬e.weekend_bonus_forfeited = true
  · rw [if_pos h1]
    by_cases h3 : allOriginalsMadeCut e lb = true
    · by_cases h4 : e.weekend_bonus_earned = true
      · have hne : ¬weekendEligible e lb r := by
          rintro ⟨_, _, he, _⟩
          rw [he] at h4
          exact Bool.false_ne_true h4
        rw [if_neg (by simp [h4])]
        simp [h4, hne]
      · have hel : weekendEligible e lb r :=
          ⟨h1.1, by simpa using h1.2, by simpa using h4,
           (allOriginalsMadeCut_iff e lb).mp h3⟩
        rw [if_pos ⟨h3, h4⟩]
        simp [hel]
    · have hne : ¬weekendEligible e lb r := fun hel =>
        h3 ((allOriginalsMadeCut_iff e lb).mpr hel.2.2.2)
      rw [if_neg (by simp [h3])]
      simp [hne]
  · have hne : ¬weekendEligible e lb r := by
      rintro ⟨he1, he2, _, _⟩
      exact h1 ⟨he1, by simp [he2]⟩
    rw [if_neg h1]
    simp [hne]

/-- Membership in the re-attached manual bonuses, characterised by the
persisted manual rows. -/
theorem mem_manualBonuses_iff (ids : List String) (table : List BPRow)
    (eid rid : Nat) (b : Bonus) :
    b ∈ manualBonuses ids table eid rid ↔
    ∃ r ∈ manualBonusRows table eid rid,
      (r.player_id.getD "None") ∈ ids ∧
      b = Bonus.mk (some (r.player_id.getD "None")) r.bonus_type r.points
        none := by
  unfold manualBonuses
  rw [List.mem_filterMap]
  constructor
  · rintro ⟨r, hr, hf⟩
    dsimp only at hf
    by_cases hin : (r.player_id.getD "None") ∈ ids
    · rw [if_pos hin] at hf
      exact ⟨r, hr, hin, (Option.some.inj hf).symm⟩
    · rw [if_neg hin] at hf
      cases hf
  · rintro ⟨r, hr, hin, rfl⟩
    exact ⟨r, hr, by dsimp only; rw [if_pos hin]⟩

/-- Every bonus produced by the per-player loop carries that player's id
and one of the four auto-computed per-player types. -/
theorem playerBonuses_shape {b : Bonus} {pid : String}
    {ls : Option String} {sc : ScorecardData} {rid : Nat}
    (hb : b ∈ playerBonuses pid ls sc rid) :
    b.player_id = some pid ∧
    b.bonus_type ∈ ["low_score", "hole_in_one", "double_eagle", "eagle"] := by
  unfold playerBonuses at hb
  rw [List.mem_append] at hb
  rcases hb with h | h
  · by_cases hl : ls = some pid
    · rw [if_pos hl] at h
      rw [List.mem_singleton] at h
      subst h
      exact ⟨rfl, by simp⟩
    · rw [if_neg hl] at h
      cases h
  · rw [List.mem_flatMap] at h
    obtain ⟨card, _, hmem⟩ := h
    by_cases hr : card.roundId = rid
    · rw [if_pos hr] at hmem
      unfold scorecardHoleBonuses at hmem
      rw [List.mem_filterMap] at hmem
      obtain ⟨hole, _, hf⟩ := hmem
      rcases hhs : hole.2.holeScore with _ | hs <;> rw [hhs] at hf
      · cases hf
      · rcases hpar : hole.2.par with _ | par <;> rw [hpar] at hf
        · cases hf
        · dsimp only at hf
          split_ifs at hf <;>
            (cases Option.some.inj hf; exact ⟨rfl, by simp⟩)
    · rw [if_neg hr] at hmem
      cases hmem

/-! ## Claims -/

/-- C1 (code bug): `calculate_and_save_daily_score` is not idempotent in
the round-3 weekend-bonus scenario.  The first call on `weekendEntry`
(all six original players survive, bonus neither earned nor forfeited)
saves base 6, bonus 5, total 11 and persists the `all_make_cut` row; the
second call with identical snapshots — because the first call set
`weekend_bonus_earned` — no longer detects the bonus, deletes the
persisted `all_make_cut` row, and overwrites the `DailyScore` row with
bonus 0, total 6.  The upsert itself does not duplicate the row, but the
saved row and the persisted bonus set change, contradicting the claimed
idempotence. -/
theorem c1_recalculation_drops_weekend_bonus :
    weekendCall1.2.base_points = 6 ∧ weekendCall1.2.bonus_points = 5 ∧
    weekendCall1.2.total_points = 11 ∧
    weekendCall1.1.bonus_rows = [BPRow.mk 1 3 "all_make_cut" 5 none none] ∧
    weekendCall1.1.daily_scores = [weekendCall1.2] ∧
    weekendCall2.2.bonus_points = 0 ∧ weekendCall2.2.total_points = 6 ∧
    weekendCall2.1.bonus_rows = [] ∧
    weekendCall2.1.daily_scores = [weekendCall2.2] ∧
    weekendCall2.2 ≠ weekendCall1.2 := by decide

/-- C2 counterexample: a slot with numeric position "20" and status
"cut" in round 1 receives the top-25 value 1, not the 0 the claim
requires. -/
theorem c2_counterexample :
    calculate_position_points (some "20") 1 false (some "cut") = 1 ∧
    ¬calculate_position_points (some "20") 1 false (some "cut") = 0 := by
  decide

/-- C2 (amended): for a cut/wd/dq status, `calculate_position_points`
returns 0 when the position string is itself cut/wd/dq and when the
parsed position lies beyond the top 25 (the made-cut branch is the only
place the status argument is consulted); for a parsed position within the
top 25 the tier value is returned exactly as if the status were absent. -/
theorem c2_status_zeroes_only_beyond_top25 (r : Nat) (w : Bool)
    (st p : String) (hst : strLower st ∈ elimStatuses) :
    (strLower p ∈ elimStatuses →
      calculate_position_points (some p) r w (some st) = 0) ∧
    (∀ n, parsedPosition p = some n → 25 < n →
      calculate_position_points (some p) r w (some st) = 0) ∧
    (∀ n, parsedPosition p = some n → n ≤ 25 →
      calculate_position_points (some p) r w (some st) =
        calculate_position_points (some p) r w none) := by
  refine ⟨?_, ?_, ?_⟩
  · intro hp
    have hnone : parsedPosition p = none := by
      unfold parsedPosition
      by_cases hpe : p = ""
      · rw [if_pos hpe]
      · rw [if_neg hpe, if_pos hp]
    exact cpp_parsed_none hnone r w (some st)
  · intro n hn h25
    rw [cpp_parsed_some hn]
    exact tierPoints_gt25_elim h25 w hst
  · intro n hn h25
    rw [cpp_parsed_some hn, cpp_parsed_some hn]
    exact tierPoints_le25_status_irrelevant h25 r w (some st) none

/-- Witness instantiating C2's amended theorem: status "cut" zeroes
position "30" in round 2, while position "20" in round 1 scores exactly
as with no status. -/
theorem c2_status_zeroes_only_beyond_top25_witness :
    strLower "cut" ∈ elimStatuses ∧ parsedPosition "30" = some 30 ∧
    calculate_position_points (some "30") 2 false (some "cut") = 0 ∧
    calculate_position_points (some "20") 1 false (some "cut") =
      calculate_position_points (some "20") 1 false none :=
  ⟨by decide, by decide,
   (c2_status_zeroes_only_beyond_top25 2 false "cut" "30"
     (by decide)).2.1 30 (by decide) (by decide),
   (c2_status_zeroes_only_beyond_top25 1 false "cut" "20"
     (by decide)).2.2 20 (by decide) (by decide)⟩

/-- C3: the default rule table sends round-1 positions
{1,2,5,10,20,30} of active players to {8,5,5,3,1,0} with base total 22;
round 1 has no made-cut tier, so every parsed position beyond 25 scores
0; rounds 2-4 award the made-cut value 1 to a completed player beyond the
top 25; and every position string the parser rejects scores 0 (the
embedding is total, so no input can raise). -/
theorem c3_default_rule_table :
    ((["1", "2", "5", "10", "20", "30"].map (fun p =>
      calculate_position_points (some p) 1 false (some "complete"))) =
      [8, 5, 5, 3, 1, 0]) ∧
    ((["1", "2", "5", "10", "20", "30"].map (fun p =>
      calculate_position_points (some p) 1 false (some "complete"))).sum
      = 22) ∧
    (∀ p n w st, parsedPosition p = some n → 25 < n →
      calculate_position_points (some p) 1 w st = 0) ∧
    (∀ r, (r = 2 ∨ r = 3 ∨ r = 4) → ∀ p n w,
      parsedPosition p = some n → 25 < n →
      calculate_position_points (some p) r w (some "complete") = 1) ∧
    (∀ p r w st, parsedPosition p = none →
      calculate_position_points (some p) r w st = 0) := by
  refine ⟨by decide, by decide, ?_, ?_, ?_⟩
  · intro p n w st hn h25
    rw [cpp_parsed_some hn]
    exact tierPoints_round1_gt25 h25 w st
  · intro r hr p n w hn h25
    rw [cpp_parsed_some hn]
    exact tierPoints_madecut hr h25 w (by decide) (by decide)
  · intro p r w st hn
    exact cpp_parsed_none hn r w st

/-- Witness instantiating C3: position "30" in round 1 scores 0, "40" in
round 2 scores 1, and the unparseable "zzz" scores 0. -/
theorem c3_default_rule_table_witness :
    parsedPosition "30" = some 30 ∧ (25 : Int) < 30 ∧
    calculate_position_points (some "30") 1 true (some "complete") = 0 ∧
    calculate_position_points (some "40") 2 false (some "complete") = 1 ∧
    parsedPosition "zzz" = none ∧
    calculate_position_points (some "zzz") 4 false none = 0 :=
  ⟨by decide, by decide,
   c3_default_rule_table.2.2.1 "30" 30 true (some "complete") (by decide)
     (by decide),
   c3_default_rule_table.2.2.2.1 2 (Or.inl rfl) "40" 40 false (by decide)
     (by decide),
   by decide,
   c3_default_rule_table.2.2.2.2 "zzz" 4 false none (by decide)⟩

/-- C4: in round 4, a breakdown slot at position "1" is worth the winner
value 15 exactly when the winner determination points at that player, and
the ordinary leader value 12 otherwise; and the winner determination only
ever returns a player holding a leaderboard row with position "1" and
status "complete". -/
theorem c4_winner_requires_complete (lb : List LBRow) (e : Entry) :
    (∀ q, winnerId lb = some q →
      ∃ row ∈ lb, row.playerId = q ∧ row.position = some "1" ∧
        row.status = some "complete") ∧
    (∀ s ∈ (calculate_daily_base_points e lb 4).2, s.position = some "1" →
      s.points = if winnerId lb = some s.player_id then 15 else 12) := by
  constructor
  · intro q hq
    unfold winnerId at hq
    cases hfind : lb.find? (fun row =>
        decide (row.position = some "1" ∧ row.status = some "complete"))
      with
    | none => rw [hfind] at hq; exact absurd hq (by simp)
    | some row =>
      rw [hfind] at hq
      have hmem := List.mem_of_find?_eq_some hfind
      have hprop := List.find?_some hfind
      simp only [decide_eq_true_eq] at hprop
      simp only [Option.map_some', Option.some.injEq] at hq
      exact ⟨row, hmem, hq ▸ rfl, hprop.1, hprop.2⟩
  · intro s hs hpos
    unfold calculate_daily_base_points at hs
    simp only [List.mem_map] at hs
    obtain ⟨pid, hpid, rfl⟩ := hs
    dsimp only at hpos ⊢
    rw [hpos]
    rw [cpp_parsed_some (by decide : parsedPosition "1" = some 1)]
    rw [tierPoints_one_round4]
    by_cases hw : winnerId lb = some pid
    · simp [hw]
    · simp [hw]

/-- C5: rebuy resolution.  For rounds 1-2 the effective player set is the
six nominal ids unmodified; the base-points breakdown iterates exactly
the effective set, and the bonus detector's three parts (manual
re-attachment, per-player scan, weekend block) are built from the same
effective set; for rounds ≥ 3 with non-empty index-aligned rebuy arrays,
a slot is replaced by the rebuy id paired with its original and left
alone otherwise; and the weekend `all_make_cut` bonus appears in the
detector's output exactly under `weekendEligible`, whose player scan
inspects only the six original ids. -/
theorem c5_rebuy_resolution (e : Entry) (r : Nat) (lb : List LBRow)
    (sc : ScorecardData) (table : List BPRow) :
    (r < 3 → effectivePlayerIds e r = nominalIds e) ∧
    ((calculate_daily_base_points e lb r).2.map (fun s => s.player_id) =
      effectivePlayerIds e r) ∧
    ((calculate_bonus_points e lb sc r table).1 =
      manualBonuses (effectivePlayerIds e r) table e.id r ++
      (effectivePlayerIds e r).flatMap (fun pid =>
        playerBonuses pid ((lowScoreScan lb).map (fun x => x.2)) sc r) ++
      (weekendResult e lb r).1) ∧
    (e.rebuy_original_player_ids.Nodup →
     e.rebuy_original_player_ids.length = e.rebuy_player_ids.length →
     3 ≤ r → e.rebuy_player_ids ≠ [] → e.rebuy_original_player_ids ≠ [] →
     ∀ (i : Nat) (pid : String), (nominalIds e)[i]? = some pid →
       (pid ∉ e.rebuy_original_player_ids →
         (effectivePlayerIds e r)[i]? = some pid) ∧
       (∀ j : Nat, e.rebuy_original_player_ids[j]? = some pid →
         (effectivePlayerIds e r)[i]? = e.rebuy_player_ids[j]?)) ∧
    ((Bonus.mk none "all_make_cut" 5 none ∈
        (calculate_bonus_points e lb sc r table).1) ↔
      weekendEligible e lb r) := by
  refine ⟨?_, ?_, rfl, ?_, ?_⟩
  · intro hr
    unfold effectivePlayerIds
    rw [if_neg (by rintro ⟨h3, _⟩; omega)]
  · unfold calculate_daily_base_points
    dsimp only
    rw [List.map_map]
    exact List.map_id'' (fun _ => rfl) _
  · intro hnd hlen hr hne hne2 i pid hi
    have heff : effectivePlayerIds e r = (nominalIds e).map (fun pid =>
        (dictGet (buildDict
          (e.rebuy_original_player_ids.zip e.rebuy_player_ids)) pid).getD
          pid) := by
      unfold effectivePlayerIds
      rw [if_pos ⟨hr, hne, hne2⟩]
    constructor
    · intro hnotin
      rw [heff, List.getElem?_map, hi]
      have : dictGet (buildDict
          (e.rebuy_original_player_ids.zip e.rebuy_player_ids)) pid =
          none := by
        apply dictGet_buildDict_not_mem
        rw [List.map_fst_zip _ _ (le_of_eq hlen)]
        exact hnotin
      simp [this]
    · intro j hj
      have hjlt : j < e.rebuy_original_player_ids.length := by
        by_contra hge
        rw [List.getElem?_eq_none (le_of_not_lt hge)] at hj
        cases hj
      have hjlt2 : j < e.rebuy_player_ids.length := hlen ▸ hjlt
      have hv : e.rebuy_player_ids[j]? = some e.rebuy_player_ids[j] :=
        List.getElem?_eq_getElem hjlt2
      have hzip : (e.rebuy_original_player_ids.zip
          e.rebuy_player_ids)[j]? = some (pid, e.rebuy_player_ids[j]) := by
        rw [List.getElem?_zip_eq_some]
        exact ⟨hj, hv⟩
      have hmemz := List.getElem?_mem hzip
      have hget : dictGet (buildDict
          (e.rebuy_original_player_ids.zip e.rebuy_player_ids)) pid =
          some e.rebuy_player_ids[j] := by
        apply dictGet_buildDict_mem
        · rw [List.map_fst_zip _ _ (le_of_eq hlen)]
          exact hnd
        · exact hmemz
      rw [heff, List.getElem?_map, hi, hv]
      simp [hget]
  · unfold calculate_bonus_points
    dsimp only
    rw [List.mem_append, List.mem_append]
    constructor
    · rintro ((hm | hp) | hw)
      · rw [mem_manualBonuses_iff] at hm
        obtain ⟨_, _, _, habs⟩ := hm
        cases habs
      · rw [List.mem_flatMap] at hp
        obtain ⟨pid, _, hp⟩ := hp
        obtain ⟨habs, _⟩ := playerBonuses_shape hp
        cases habs
      · rw [weekendResult_fst] at hw
        by_cases hel : weekendEligible e lb r
        · exact hel
        · rw [if_neg hel] at hw
          cases hw
    · intro hel
      refine Or.inr ?_
      rw [weekendResult_fst, if_pos hel]
      exact List.mem_singleton.mpr rfl

/-- Witness instantiating C5: for `rebuyEntry` rounds 1-2 keep the
nominal ids, round 3 replaces slot 2 (original b, first rebuy pair) by r1
and keeps slot 1; and `weekendEntry` on `weekendLB` receives the
`all_make_cut` bonus. -/
theorem c5_rebuy_resolution_witness :
    effectivePlayerIds rebuyEntry 1 = nominalIds rebuyEntry ∧
    (effectivePlayerIds rebuyEntry 3)[1]? = some "r1" ∧
    (effectivePlayerIds rebuyEntry 3)[0]? = some "a" ∧
    Bonus.mk none "all_make_cut" 5 none ∈
      (calculate_bonus_points weekendEntry weekendLB [] 3 []).1 :=
  ⟨(c5_rebuy_resolution rebuyEntry 1 [] [] []).1 (by omega),
   (((c5_rebuy_resolution rebuyEntry 3 [] [] []).2.2.2.1 (by decide)
       (by decide) (by omega) (by decide) (by decide) 1 "b"
       (by decide)).2 0 (by decide)).trans (by decide),
   ((c5_rebuy_resolution rebuyEntry 3 [] [] []).2.2.2.1 (by decide)
       (by decide) (by omega) (by decide) (by decide) 0 "a"
       (by decide)).1 (by decide),
   ((c5_rebuy_resolution weekendEntry 3 weekendLB [] []).2.2.2.2).mpr
     (by decide)⟩

/-- The earned flag survives a detection call. -/
theorem detectStep_earned_mono (e : Entry) (i : DetectInput)
    (h : e.weekend_bonus_earned = true) :
    (detectStep e i).weekend_bonus_earned = true := by
  unfold detectStep
  dsimp only
  exact (weekendResult_snd e i.lb i.round_id).mpr (Or.inl h)

/-- An entry that has already earned the bonus never flips again. -/
theorem earnedFlips_of_earned (is : List DetectInput) (e : Entry)
    (h : e.weekend_bonus_earned = true) : earnedFlips e is = 0 := by
  induction is generalizing e with
  | nil => rfl
  | cons i rest ih =>
    unfold earnedFlips
    rw [if_neg (by rintro ⟨hf, _⟩; rw [h] at hf; cases hf)]
    rw [ih _ (detectStep_earned_mono e i h)]

/-- C6: along any sequence of bonus-detection calls,
`weekend_bonus_earned` flips from false to true at most once; no call
changes `weekend_bonus_forfeited`; and a call that flips the flag is a
round-3 call on a non-forfeited entry all six of whose original players
have a status other than cut/wd/dq. -/
theorem c6_weekend_bonus_once (e : Entry) (inputs : List DetectInput) :
    earnedFlips e inputs ≤ 1 ∧
    (∀ (e' : Entry) (i : DetectInput),
      (detectStep e' i).weekend_bonus_forfeited =
        e'.weekend_bonus_forfeited) ∧
    (∀ (e' : Entry) (i : DetectInput),
      e'.weekend_bonus_earned = false →
      (detectStep e' i).weekend_bonus_earned = true →
      i.round_id = 3 ∧ e'.weekend_bonus_forfeited = false ∧
      ∀ pid ∈ nominalIds e',
        get_player_status i.lb pid ∉ ["cut", "wd", "dq"]) := by
  refine ⟨?_, fun _ _ => rfl, ?_⟩
  · induction inputs generalizing e with
    | nil => exact Nat.zero_le 1
    | cons i rest ih =>
      unfold earnedFlips
      by_cases hs : (detectStep e i).weekend_bonus_earned = true
      · rw [earnedFlips_of_earned _ _ hs]
        split_ifs <;> omega
      · rw [if_neg (by rintro ⟨_, hc⟩; exact hs hc)]
        simpa using ih (detectStep e i)
  · intro e' i he hs
    unfold detectStep at hs
    dsimp only at hs
    rcases (weekendResult_snd e' i.lb i.round_id).mp hs with hq | hel
    · rw [he] at hq
      cases hq
    · exact ⟨hel.1, hel.2.1, hel.2.2.2⟩

/-- Witness instantiating C6: two identical eligible round-3 calls on
`weekendEntry` flip the flag exactly once, and the flipping call
satisfies the characterisation. -/
theorem c6_weekend_bonus_once_witness :
    earnedFlips weekendEntry
      [DetectInput.mk 3 weekendLB [] [], DetectInput.mk 3 weekendLB [] []]
      ≤ 1 ∧
    earnedFlips weekendEntry
      [DetectInput.mk 3 weekendLB [] [], DetectInput.mk 3 weekendLB [] []]
      = 1 ∧
    (DetectInput.mk 3 weekendLB [] []).round_id = 3 ∧
    weekendEntry.weekend_bonus_forfeited = false :=
  ⟨(c6_weekend_bonus_once weekendEntry
      [DetectInput.mk 3 weekendLB [] [],
       DetectInput.mk 3 weekendLB [] []]).1,
   by decide,
   ((c6_weekend_bonus_once weekendEntry []).2.2 weekendEntry
     (DetectInput.mk 3 weekendLB [] []) (by decide) (by decide)).1,
   ((c6_weekend_bonus_once weekendEntry []).2.2 weekendEntry
     (DetectInput.mk 3 weekendLB [] []) (by decide) (by decide)).2.1⟩

/-- The insertion loop never changes the set of manual-typed rows. -/
theorem insertAutoBonuses_filter_manual (bonuses : List Bonus)
    (rows : List BPRow) (eid rid : Nat) :
    (insertAutoBonuses rows eid rid bonuses).filter
      (fun r => r.bonus_type ∈ manualTypes) =
      rows.filter (fun r => r.bonus_type ∈ manualTypes) := by
  induction bonuses generalizing rows with
  | nil => rfl
  | cons b rest ih =>
    unfold insertAutoBonuses
    dsimp only
    by_cases hb : b.bonus_type ∈ manualTypes
    · rw [if_pos hb]
      exact ih rows
    · rw [if_neg hb]
      by_cases hex : rows.any (fun r => bonusRowMatches r eid rid b) = true
      · rw [if_pos hex]
        exact ih rows
      · rw [if_neg hex, ih]
        rw [List.filter_append]
        simp [hb]

/-- The delete step of the update path only removes non-manual rows. -/
theorem deleteAuto_filter_manual (rows : List BPRow) (eid rid : Nat) :
    (rows.filter (fun r =>
      ¬(r.entry_id = eid ∧ r.round_id = rid ∧
        r.bonus_type ∉ manualTypes))).filter
      (fun r => r.bonus_type ∈ manualTypes) =
      rows.filter (fun r => r.bonus_type ∈ manualTypes) := by
  induction rows with
  | nil => rfl
  | cons r rest ih =>
    by_cases hm : r.bonus_type ∈ manualTypes
    · have hkeep : ¬(r.entry_id = eid ∧ r.round_id = rid ∧
          r.bonus_type ∉ manualTypes) := by
        rintro ⟨_, _, hnot⟩
        exact hnot hm
      simp only [List.filter_cons]
      rw [if_pos (decide_eq_true hkeep)]
      simp only [List.filter_cons]
      rw [if_pos (decide_eq_true hm), if_pos (decide_eq_true hm), ih]
    · simp only [List.filter_cons]
      by_cases hkeep : ¬(r.entry_id = eid ∧ r.round_id = rid ∧
          r.bonus_type ∉ manualTypes)
      · rw [if_pos (decide_eq_true hkeep)]
        simp only [List.filter_cons]
        rw [if_neg (fun hc => hm (of_decide_eq_true hc)),
          if_neg (fun hc => hm (of_decide_eq_true hc)), ih]
      · rw [if_neg (fun hc => hkeep (of_decide_eq_true hc)),
          if_neg (fun hc => hm (of_decide_eq_true hc)), ih]

/-- C7: recomputation passes preserve manual bonus rows.  After any
`calculate_and_save_daily_score` call the manual-typed (`gir_leader`,
`fairways_leader`) rows of the `BonusPoint` table are exactly the ones
present before — none deleted, modified, or created — and a manual-typed
bonus appears in the freshly detected bonus list exactly when a persisted
manual row for the (entry, round) names a player of the entry's effective
set. -/
theorem c7_manual_bonuses_survive (st : DBState) (lb : List LBRow)
    (sc : ScorecardData) (rid : Nat) :
    ((calculate_and_save_daily_score st lb sc rid).1.bonus_rows.filter
        (fun r => r.bonus_type ∈ manualTypes) =
      st.bonus_rows.filter (fun r => r.bonus_type ∈ manualTypes)) ∧
    (∀ b : Bonus, b.bonus_type ∈ manualTypes →
      (b ∈ (calculate_bonus_points st.entry lb sc rid st.bonus_rows).1 ↔
        ∃ r ∈ manualBonusRows st.bonus_rows st.entry.id rid,
          (r.player_id.getD "None") ∈ effectivePlayerIds st.entry rid ∧
          b = Bonus.mk (some (r.player_id.getD "None")) r.bonus_type
            r.points none)) := by
  constructor
  · unfold calculate_and_save_daily_score
    dsimp only
    cases hfind : st.daily_scores.find? (fun r =>
        decide (r.entry_id = st.entry.id ∧ r.round_id = rid)) with
    | none =>
      dsimp only
      rw [insertAutoBonuses_filter_manual]
    | some _ =>
      dsimp only
      rw [insertAutoBonuses_filter_manual, deleteAuto_filter_manual]
  · intro b hbm
    unfold calculate_bonus_points
    dsimp only
    rw [List.mem_append, List.mem_append]
    constructor
    · rintro ((hm | hp) | hw)
      · exact (mem_manualBonuses_iff _ _ _ _ _).mp hm
      · rw [List.mem_flatMap] at hp
        obtain ⟨pid, _, hp⟩ := hp
        obtain ⟨_, htype⟩ := playerBonuses_shape hp
        simp only [manualTypes, List.mem_cons, List.not_mem_nil,
          or_false] at hbm
        simp only [List.mem_cons, List.not_mem_nil, or_false] at htype
        rcases hbm with h1 | h1 <;>
          rcases htype with h2 | h2 | h2 | h2 <;>
          (rw [h1] at h2; exact absurd h2 (by decide))
      · rw [weekendResult_fst] at hw
        by_cases hel : weekendEligible st.entry lb rid
        · rw [if_pos hel, List.mem_singleton] at hw
          rw [hw] at hbm
          exact absurd hbm (by decide)
        · rw [if_neg hel] at hw
          cases hw
    · intro hex
      exact Or.inl (Or.inl ((mem_manualBonuses_iff _ _ _ _ _).mpr hex))

/-- Witness instantiating C7: on `manualState` (one persisted gir_leader
row for player a) a recomputation of round 2 leaves the manual row set
unchanged, and the manual bonus is re-attached to the detected list. -/
theorem c7_manual_bonuses_survive_witness :
    (calculate_and_save_daily_score manualState [] [] 2).1.bonus_rows.filter
        (fun r => r.bonus_type ∈ manualTypes) =
      manualState.bonus_rows.filter
        (fun r => r.bonus_type ∈ manualTypes) ∧
    (Bonus.mk (some "a") "gir_leader" 1 none).bonus_type ∈ manualTypes ∧
    Bonus.mk (some "a") "gir_leader" 1 none ∈
      (calculate_bonus_points manualState.entry [] [] 2
        manualState.bonus_rows).1 :=
  ⟨(c7_manual_bonuses_survive manualState [] [] 2).1,
   by decide,
   ((c7_manual_bonuses_survive manualState [] [] 2).2 _ (by decide)).mpr
     (by decide)⟩

/-- The maximal-timestamp scan started from a candidate never loses it. -/
theorem foldl_latestPick_some (l : List SSnap) (b : SSnap) :
    ∃ x, l.foldl latestPick (some b) = some x := by
  induction l generalizing b with
  | nil => exact ⟨b, rfl⟩
  | cons s rest ih =>
    rw [List.foldl_cons]
    show ∃ x, rest.foldl latestPick
      (if b.timestamp < s.timestamp then some s else some b) = some x
    by_cases h : b.timestamp < s.timestamp
    · rw [if_pos h]; exact ih s
    · rw [if_neg h]; exact ih b

/-- `latestSnapshot` is empty exactly when no snapshot matches the
round. -/
theorem latestSnapshot_eq_none_iff (ss : List SSnap) (r : Nat) :
    latestSnapshot ss r = none ↔ ∀ s ∈ ss, s.round_id ≠ r := by
  unfold latestSnapshot
  constructor
  · intro h s hs hr
    have hsf : s ∈ ss.filter (fun s => decide (s.round_id = r)) :=
      List.mem_filter.mpr ⟨hs, by simpa using hr⟩
    cases hf : ss.filter (fun s => decide (s.round_id = r)) with
    | nil => rw [hf] at hsf; cases hsf
    | cons a l =>
      rw [hf, List.foldl_cons] at h
      obtain ⟨x, hx⟩ := foldl_latestPick_some l a
      rw [show latestPick none a = some a from rfl, hx] at h
      cases h
  · intro h
    have hnil : ss.filter (fun s => decide (s.round_id = r)) = [] := by
      rw [List.filter_eq_nil_iff]
      intro s hs
      simpa using h s hs
    rw [hnil]
    rfl

/-- Behaviour of the per-entry loop over any starting accumulator. -/
theorem entryLoop_spec (entryCalc : Nat → Except String ℤ)
    (entries : List Nat) (acc : CalcResults) :
    ((entries.foldl (entryLoopStep entryCalc) acc).success = acc.success) ∧
    ((entries.foldl (entryLoopStep entryCalc) acc).message = acc.message) ∧
    ((entries.foldl (entryLoopStep entryCalc) acc).capture_ran =
      acc.capture_ran) ∧
    ((entries.foldl (entryLoopStep entryCalc) acc).entries_processed =
      acc.entries_processed + entries.length) ∧
    ((entries.foldl (entryLoopStep entryCalc) acc).errors =
      acc.errors ++ entries.filterMap (fun eid =>
        match entryCalc eid with
        | Except.ok _ => none
        | Except.error m => some (eid, m))) := by
  induction entries generalizing acc with
  | nil => exact ⟨rfl, rfl, rfl, by simp, by simp⟩
  | cons eid rest ih =>
    rw [List.foldl_cons]
    cases h : entryCalc eid with
    | ok v =>
      have hstep : entryLoopStep entryCalc acc eid =
          { acc with
            entries_processed := acc.entries_processed + 1,
            entries_updated := acc.entries_updated + 1 } := by
        unfold entryLoopStep
        rw [h]
      rw [hstep]
      obtain ⟨i1, i2, i3, i4, i5⟩ := ih _
      refine ⟨i1, i2, i3, ?_, ?_⟩
      · rw [i4]
        simp only [List.length_cons]
        omega
      · rw [i5]
        simp [List.filterMap_cons, h]
    | error m =>
      have hstep : entryLoopStep entryCalc acc eid =
          { acc with
            entries_processed := acc.entries_processed + 1,
            errors := acc.errors ++ [(eid, m)] } := by
        unfold entryLoopStep
        rw [h]
      rw [hstep]
      obtain ⟨i1, i2, i3, i4, i5⟩ := ih _
      refine ⟨i1, i2, i3, ?_, ?_⟩
      · rw [i4]
        simp only [List.length_cons]
        omega
      · rw [i5]
        simp [List.filterMap_cons, h]

/-- C8: with no snapshot for the requested round the orchestrator returns
the structured "sync first" failure (success false, nothing processed, no
ranking capture) instead of raising; with a snapshot present, every entry
is processed even when some per-entry computations raise — each exception
becomes an error-list element — and the result stays successful and still
runs the ranking-snapshot capture. -/
theorem c8_orchestrator_tolerates_failures (snapshots : List SSnap)
    (round_id : Nat) (entries : List Nat)
    (entryCalc : Nat → Except String ℤ) :
    ((∀ s ∈ snapshots, s.round_id ≠ round_id) →
      calculate_scores_for_tournament snapshots round_id entries
        entryCalc =
      CalcResults.mk false
        (some "No score snapshot found. Please sync tournament data first.")
        0 0 [] false) ∧
    (∀ s ∈ snapshots, s.round_id = round_id →
      ((calculate_scores_for_tournament snapshots round_id entries
          entryCalc).success = true ∧
       (calculate_scores_for_tournament snapshots round_id entries
          entryCalc).entries_processed = entries.length ∧
       (calculate_scores_for_tournament snapshots round_id entries
          entryCalc).capture_ran = true ∧
       (calculate_scores_for_tournament snapshots round_id entries
          entryCalc).errors = entries.filterMap (fun eid =>
            match entryCalc eid with
            | Except.ok _ => none
            | Except.error m => some (eid, m)))) := by
  constructor
  · intro h
    unfold calculate_scores_for_tournament
    rw [(latestSnapshot_eq_none_iff snapshots round_id).mpr h]
  · intro s hs hr
    obtain ⟨x, hx⟩ : ∃ x, latestSnapshot snapshots round_id = some x := by
      unfold latestSnapshot
      have hsf : s ∈ snapshots.filter
          (fun s => decide (s.round_id = round_id)) :=
        List.mem_filter.mpr ⟨hs, by simpa using hr⟩
      cases hf : snapshots.filter
          (fun s => decide (s.round_id = round_id)) with
      | nil => rw [hf] at hsf; cases hsf
      | cons a l =>
        rw [List.foldl_cons, show latestPick none a = some a from rfl]
        exact foldl_latestPick_some l a
    unfold calculate_scores_for_tournament
    rw [hx]
    dsimp only
    obtain ⟨i1, i2, i3, i4, i5⟩ :=
      entryLoop_spec entryCalc entries (CalcResults.mk true none 0 0 [] false)
    rw [if_pos i1]
    refine ⟨i1, by simpa using i4, rfl, by simpa using i5⟩

/-- Witness instantiating C8: an empty snapshot table yields the
structured failure; with one round-1 snapshot and two entries of which
the second raises, both entries are processed, the error is collected,
and the capture step still runs. -/
theorem c8_orchestrator_tolerates_failures_witness :
    calculate_scores_for_tournament [] 1 [1, 2] c8Calc =
      CalcResults.mk false
        (some "No score snapshot found. Please sync tournament data first.")
        0 0 [] false ∧
    (calculate_scores_for_tournament [SSnap.mk 1 0 [] []] 1 [1, 2]
        c8Calc).success = true ∧
    (calculate_scores_for_tournament [SSnap.mk 1 0 [] []] 1 [1, 2]
        c8Calc).entries_processed = 2 ∧
    (calculate_scores_for_tournament [SSnap.mk 1 0 [] []] 1 [1, 2]
        c8Calc).capture_ran = true ∧
    (calculate_scores_for_tournament [SSnap.mk 1 0 [] []] 1 [1, 2]
        c8Calc).errors = [(2, "boom")] :=
  ⟨(c8_orchestrator_tolerates_failures [] 1 [1, 2] c8Calc).1
     (by intro s hs; cases hs),
   ((c8_orchestrator_tolerates_failures [SSnap.mk 1 0 [] []] 1 [1, 2]
       c8Calc).2 (SSnap.mk 1 0 [] []) (by decide) rfl).1,
   ((c8_orchestrator_tolerates_failures [SSnap.mk 1 0 [] []] 1 [1, 2]
       c8Calc).2 (SSnap.mk 1 0 [] []) (by decide) rfl).2.1,
   ((c8_orchestrator_tolerates_failures [SSnap.mk 1 0 [] []] 1 [1, 2]
       c8Calc).2 (SSnap.mk 1 0 [] []) (by decide) rfl).2.2.1,
   (((c8_orchestrator_tolerates_failures [SSnap.mk 1 0 [] []] 1 [1, 2]
       c8Calc).2 (SSnap.mk 1 0 [] []) (by decide) rfl).2.2.2).trans
     (by decide)⟩

theorem insertDesc_perm (x : Nat × ℤ) (l : List (Nat × ℤ)) :
    (insertDesc x l).Perm (x :: l) := by
  induction l with
  | nil => exact List.Perm.refl _
  | cons y ys ih =>
    unfold insertDesc
    by_cases h : y.2 ≤ x.2
    · rw [if_pos h]
    · rw [if_neg h]
      exact (ih.cons y).trans (List.Perm.swap x y ys)

theorem sortDescBy_perm (l : List (Nat × ℤ)) : (sortDescBy l).Perm l := by
  induction l with
  | nil => exact List.Perm.refl _
  | cons x xs ih =>
    exact (insertDesc_perm x (sortDescBy xs)).trans (ih.cons x)

theorem insertDesc_pairwise (x : Nat × ℤ) (l : List (Nat × ℤ))
    (hl : l.Pairwise (fun a b => b.2 ≤ a.2)) :
    (insertDesc x l).Pairwise (fun a b => b.2 ≤ a.2) := by
  induction l with
  | nil => simp [insertDesc]
  | cons y ys ih =>
    rw [List.pairwise_cons] at hl
    unfold insertDesc
    by_cases h : y.2 ≤ x.2
    · rw [if_pos h]
      rw [List.pairwise_cons]
      refine ⟨?_, List.pairwise_cons.mpr hl⟩
      intro z hz
      rcases List.mem_cons.mp hz with rfl | hz
      · exact h
      · exact le_trans (hl.1 z hz) h
    · rw [if_neg h]
      rw [List.pairwise_cons]
      refine ⟨?_, ih hl.2⟩
      intro z hz
      rcases List.mem_cons.mp ((insertDesc_perm x ys).mem_iff.mp hz) with
        heq | hz'
      · rw [heq]; omega
      · exact hl.1 z hz'

theorem sortDescBy_pairwise (l : List (Nat × ℤ)) :
    (sortDescBy l).Pairwise (fun a b => b.2 ≤ a.2) := by
  induction l with
  | nil => exact List.Pairwise.nil
  | cons x xs ih => exact insertDesc_pairwise x (sortDescBy xs) ih

theorem mkRankRows_length (rid : Nat) (L : ℤ) (k : Nat)
    (l : List (Nat × ℤ)) : (mkRankRows rid L k l).length = l.length := by
  induction l generalizing k with
  | nil => rfl
  | cons x xs ih => simp [mkRankRows, ih]

theorem mkRankRows_map_position (rid : Nat) (L : ℤ) (k : Nat)
    (l : List (Nat × ℤ)) :
    (mkRankRows rid L k l).map (fun row => row.position) =
      List.range' k l.length := by
  induction l generalizing k with
  | nil => rfl
  | cons x xs ih => simp [mkRankRows, List.range', ih]

theorem mkRankRows_map_entry (rid : Nat) (L : ℤ) (k : Nat)
    (l : List (Nat × ℤ)) :
    (mkRankRows rid L k l).map (fun row => row.entry_id) =
      l.map Prod.fst := by
  induction l generalizing k with
  | nil => rfl
  | cons x xs ih => simp [mkRankRows, ih]

theorem mkRankRows_mem (rid : Nat) (L : ℤ) (k : Nat)
    (l : List (Nat × ℤ)) (row : RankRow)
    (h : row ∈ mkRankRows rid L k l) :
    ∃ p ∈ l, row.entry_id = p.1 ∧ row.total_points = p.2 ∧
      row.round_id = rid ∧
      row.points_behind_leader = (if 0 < L then L - p.2 else 0) := by
  induction l generalizing k with
  | nil => cases h
  | cons x xs ih =>
    rcases List.mem_cons.mp h with rfl | h
    · exact ⟨x, List.mem_cons_self x xs, rfl, rfl, rfl, rfl⟩
    · obtain ⟨p, hp, h1, h2, h3, h4⟩ := ih (k + 1) h
      exact ⟨p, List.mem_cons_of_mem x hp, h1, h2, h3, h4⟩

theorem mkRankRows_pairwise (rid : Nat) (L : ℤ) (k : Nat)
    (l : List (Nat × ℤ)) (hl : l.Pairwise (fun a b => b.2 ≤ a.2)) :
    (mkRankRows rid L k l).Pairwise
      (fun a b => b.total_points ≤ a.total_points) := by
  induction l generalizing k with
  | nil => exact List.Pairwise.nil
  | cons x xs ih =>
    rw [List.pairwise_cons] at hl
    unfold mkRankRows
    rw [List.pairwise_cons]
    refine ⟨?_, ih (k + 1) hl.2⟩
    intro row hrow
    obtain ⟨p, hp, _, h2, _, _⟩ := mkRankRows_mem rid L (k + 1) xs row hrow
    rw [h2]
    exact hl.1 p hp

/-- C9: one ranking-capture event appends exactly one new RankingSnapshot
row per entry, unconditionally; the assigned positions are exactly
1..N in order of descending running total; each row carries its entry's
running total; and each row's points-behind-leader equals the rank-1
row's total minus that entry's total (totals are sums of per-round
points, hence non-negative, which the hypothesis records). -/
theorem c9_capture_appends_permutation (rid : Nat) (entries : List Nat)
    (ds : List DSRow) (existing : List RankRow) (hne : entries ≠ [])
    (hnn : ∀ r ∈ ds, 0 ≤ r.total_points) :
    ∃ (newRows : List RankRow) (L : ℤ),
      captureRankingSnapshot rid entries ds existing =
        existing ++ newRows ∧
      newRows.length = entries.length ∧
      newRows.map (fun row => row.position) =
        List.range' 1 entries.length ∧
      (newRows.map (fun row => row.entry_id)).Perm entries ∧
      (∀ row ∈ newRows, row.round_id = rid ∧
        row.total_points = entryTotal ds row.entry_id) ∧
      newRows.Pairwise (fun a b => b.total_points ≤ a.total_points) ∧
      newRows.head?.map (fun row => row.total_points) = some L ∧
      (∀ row ∈ newRows, row.total_points ≤ L ∧
        row.points_behind_leader = L - row.total_points) := by
  have htot : ∀ eid, 0 ≤ entryTotal ds eid := by
    intro eid
    unfold entryTotal
    apply List.sum_nonneg
    intro x hx
    rw [List.mem_map] at hx
    obtain ⟨r, hr, rfl⟩ := hx
    exact hnn r (List.mem_filter.mp hr).1
  have hperm : (sortDescBy (entries.map (fun eid =>
      (eid, entryTotal ds eid)))).Perm
      (entries.map (fun eid => (eid, entryTotal ds eid))) :=
    sortDescBy_perm _
  have hmemtot : ∀ p ∈ sortDescBy (entries.map (fun eid =>
      (eid, entryTotal ds eid))), p.2 = entryTotal ds p.1 ∧ 0 ≤ p.2 := by
    intro p hp
    have := hperm.mem_iff.mp hp
    rw [List.mem_map] at this
    obtain ⟨eid, _, rfl⟩ := this
    exact ⟨rfl, htot eid⟩
  cases hsort : sortDescBy (entries.map (fun eid =>
      (eid, entryTotal ds eid))) with
  | nil =>
    exfalso
    have hlen := hperm.length_eq
    rw [hsort] at hlen
    simp at hlen
    exact hne (List.length_eq_zero.mp hlen.symm)
  | cons x rest =>
    refine ⟨mkRankRows rid x.2 1 (x :: rest), x.2, ?_, ?_, ?_, ?_, ?_, ?_,
      ?_, ?_⟩
    · unfold captureRankingSnapshot
      rw [if_neg hne]
      dsimp only
      rw [hsort]
      rfl
    · rw [mkRankRows_length, ← hsort, hperm.length_eq, List.length_map]
    · rw [mkRankRows_map_position, ← hsort, hperm.length_eq,
        List.length_map]
    · rw [mkRankRows_map_entry]
      have := (hperm.map Prod.fst)
      rw [hsort] at this
      refine this.trans ?_
      rw [List.map_map]
      exact (List.map_id'' (fun _ => rfl) entries).symm ▸ List.Perm.refl _
    · intro row hrow
      obtain ⟨p, hp, h1, h2, h3, _⟩ :=
        mkRankRows_mem rid x.2 1 (x :: rest) row hrow
      have hpt := hmemtot p (hsort ▸ hp)
      exact ⟨h3, by rw [h2, h1, hpt.1]⟩
    · apply mkRankRows_pairwise
      rw [← hsort]
      exact sortDescBy_pairwise _
    · cases rest <;> rfl
    · intro row hrow
      obtain ⟨p, hp, _, h2, _, h4⟩ :=
        mkRankRows_mem rid x.2 1 (x :: rest) row hrow
      have hsorted := sortDescBy_pairwise (entries.map (fun eid =>
        (eid, entryTotal ds eid)))
      rw [hsort, List.pairwise_cons] at hsorted
      have hple : p.2 ≤ x.2 := by
        rcases List.mem_cons.mp hp with rfl | hp
        · exact le_refl _
        · exact hsorted.1 p hp
      have hx0 : 0 ≤ x.2 :=
        (hmemtot x (hsort ▸ List.mem_cons_self x rest)).2
      have hp0 : 0 ≤ p.2 := (hmemtot p (hsort ▸ hp)).2
      constructor
      · rw [h2]; exact hple
      · rw [h2, h4]
        by_cases hL : 0 < x.2
        · rw [if_pos hL]
        · rw [if_neg hL]
          omega

/-- Witness instantiating C9: three entries with totals 11, 4, 11 (entry
8 listed before entry 9) produce appended rows ranked 1..3 with
points-behind 0, 0, 7. -/
theorem c9_capture_appends_permutation_witness :
    ([7, 8, 9] : List Nat) ≠ [] ∧
    captureRankingSnapshot 2 [7, 8, 9]
      [DSRow.mk 8 1 0 0 11 [] [], DSRow.mk 7 1 0 0 4 [] [],
       DSRow.mk 9 1 0 0 11 [] []] [] =
      [RankRow.mk 8 2 1 11 0, RankRow.mk 9 2 2 11 0,
       RankRow.mk 7 2 3 4 7] ∧
    ∃ (newRows : List RankRow) (L : ℤ),
      captureRankingSnapshot 2 [7, 8, 9]
        [DSRow.mk 8 1 0 0 11 [] [], DSRow.mk 7 1 0 0 4 [] [],
         DSRow.mk 9 1 0 0 11 [] []] [] = [] ++ newRows ∧
      newRows.length = 3 ∧
      newRows.map (fun row => row.position) = List.range' 1 3 ∧
      (newRows.map (fun row => row.entry_id)).Perm [7, 8, 9] ∧
      (∀ row ∈ newRows, row.round_id = 2 ∧
        row.total_points = entryTotal
          [DSRow.mk 8 1 0 0 11 [] [], DSRow.mk 7 1 0 0 4 [] [],
           DSRow.mk 9 1 0 0 11 [] []] row.entry_id) ∧
      newRows.Pairwise (fun a b => b.total_points ≤ a.total_points) ∧
      newRows.head?.map (fun row => row.total_points) = some L ∧
      (∀ row ∈ newRows, row.total_points ≤ L ∧
        row.points_behind_leader = L - row.total_points) := by
  refine ⟨by decide, by decide, ?_⟩
  obtain ⟨newRows, L, h⟩ := c9_capture_appends_permutation 2 [7, 8, 9]
    [DSRow.mk 8 1 0 0 11 [] [], DSRow.mk 7 1 0 0 4 [] [],
     DSRow.mk 9 1 0 0 11 [] []] [] (by decide) (by decide)
  exact ⟨newRows, L, h⟩

theorem mem_dictInsert_ne {kv : String × α} (m : List (String × α))
    {k : String} (v : α) (h : kv.1 ≠ k) :
    kv ∈ dictInsert m k v ↔ kv ∈ m := by
  induction m with
  | nil =>
    simp only [dictInsert, List.mem_singleton, List.not_mem_nil,
      iff_false]
    intro heq
    exact h (by rw [heq])
  | cons q rest ih =>
    by_cases hq : q.1 = k
    · rw [show dictInsert (q :: rest) k v = (k, v) :: rest from by
        simp [dictInsert, hq]]
      simp only [List.mem_cons]
      constructor
      · rintro (heq | hm)
        · exact absurd (by rw [heq]) h
        · exact Or.inr hm
      · rintro (heq | hm)
        · exact absurd (by rw [heq, hq]) h
        · exact Or.inr hm
    · rw [show dictInsert (q :: rest) k v = q :: dictInsert rest k v from
        by simp [dictInsert, hq]]
      simp only [List.mem_cons, ih]

theorem mem_dictInsert_self (m : List (String × α)) (k : String) (v : α) :
    (k, v) ∈ dictInsert m k v := by
  induction m with
  | nil => simp [dictInsert]
  | cons q rest ih =>
    by_cases hq : q.1 = k
    · simp [dictInsert, hq]
    · simp only [dictInsert, if_neg hq, List.mem_cons]
      exact Or.inr ih

theorem eq_of_mem_dictInsert_self {kv : String × α}
    (m : List (String × α)) (k : String) (v : α)
    (hnot : ∀ w, (k, w) ∉ m) (hmem : kv ∈ dictInsert m k v)
    (hk : kv.1 = k) : kv = (k, v) := by
  induction m with
  | nil =>
    simpa [dictInsert] using hmem
  | cons q rest ih =>
    by_cases hq : q.1 = k
    · rw [show dictInsert (q :: rest) k v = (k, v) :: rest from by
        simp [dictInsert, hq]] at hmem
      rcases List.mem_cons.mp hmem with heq | hm
      · exact heq
      · exact absurd (show (k, kv.2) ∈ q :: rest from
          List.mem_cons_of_mem q (by rwa [← hk, Prod.mk.eta])) (hnot kv.2)
    · rw [show dictInsert (q :: rest) k v = q :: dictInsert rest k v from
        by simp [dictInsert, hq]] at hmem
      rcases List.mem_cons.mp hmem with heq | hm
      · exact absurd (heq ▸ hk) hq
      · exact ih (fun w hw => hnot w (List.mem_cons_of_mem q hw)) hm

theorem foldl_currentScores_get_frame (rows : List LBRow)
    (m : List (String × Option Int)) {p : String}
    (h : ∀ row ∈ rows, row.playerId ≠ p) :
    dictGet (rows.foldl currentScoresStep m) p = dictGet m p := by
  induction rows generalizing m with
  | nil => rfl
  | cons row rest ih =>
    rw [List.foldl_cons]
    rw [ih _ (fun r hr => h r (List.mem_cons_of_mem row hr))]
    unfold currentScoresStep
    dsimp only
    split_ifs with hc
    · rfl
    · exact dictGet_dictInsert_ne m _
        (Ne.symm (h row (List.mem_cons_self row rest)))

theorem foldl_previousScores_get_frame (rows : List LBRow)
    (m : List (String × Option Int)) {p : String}
    (h : ∀ row ∈ rows, row.playerId ≠ p) :
    dictGet (rows.foldl previousScoresStep m) p = dictGet m p := by
  induction rows generalizing m with
  | nil => rfl
  | cons row rest ih =>
    rw [List.foldl_cons]
    rw [ih _ (fun r hr => h r (List.mem_cons_of_mem row hr))]
    unfold previousScoresStep
    dsimp only
    split_ifs with hc
    · rfl
    · exact dictGet_dictInsert_ne m _
        (Ne.symm (h row (List.mem_cons_self row rest)))

theorem foldl_currentScores_mem_frame (rows : List LBRow)
    (m : List (String × Option Int)) {p : String}
    {kv : String × Option Int} (h : ∀ row ∈ rows, row.playerId ≠ p)
    (hk : kv.1 = p) :
    kv ∈ rows.foldl currentScoresStep m ↔ kv ∈ m := by
  induction rows generalizing m with
  | nil => exact Iff.rfl
  | cons row rest ih =>
    rw [List.foldl_cons]
    rw [ih _ (fun r hr => h r (List.mem_cons_of_mem row hr))]
    unfold currentScoresStep
    dsimp only
    split_ifs with hc
    · exact Iff.rfl
    · exact mem_dictInsert_ne m _
        (by rw [hk]; exact (h row (List.mem_cons_self row rest)).symm)

/-- Lookup of the flagged player's entry in the `current_scores` dict
when the player appears exactly once and passes the filter. -/
theorem buildCurrentScores_lookup (l1 l2 : List LBRow) (rc : LBRow)
    {p : String} (h2 : ∀ row ∈ l2, row.playerId ≠ p)
    (hp : rc.playerId = p)
    (hst : strLower (rc.status.getD "") ∉ skipStatuses)
    (hsc : rc.currentRoundScore.getD "" ≠ "") :
    dictGet (buildCurrentScores (l1 ++ rc :: l2)) p =
      some (parse_round_score (rc.currentRoundScore.getD "")) := by
  unfold buildCurrentScores
  rw [List.foldl_append, List.foldl_cons,
    foldl_currentScores_get_frame l2 _ h2]
  unfold currentScoresStep
  dsimp only
  rw [if_neg (by rw [not_or]; exact ⟨hst, hsc⟩), hp]
  exact dictGet_dictInsert_self _ _ _

/-- Lookup of the flagged player's entry in the `previous_scores` dict
when the player appears exactly once with a non-empty score string. -/
theorem buildPreviousScores_lookup (m1 m2 : List LBRow) (rp : LBRow)
    {p : String} (h2 : ∀ row ∈ m2, row.playerId ≠ p)
    (hp : rp.playerId = p)
    (hsc : rp.currentRoundScore.getD "" ≠ "") :
    dictGet (buildPreviousScores (m1 ++ rp :: m2)) p =
      some (parse_round_score (rp.currentRoundScore.getD "")) := by
  unfold buildPreviousScores
  rw [List.foldl_append, List.foldl_cons,
    foldl_previousScores_get_frame m2 _ h2]
  unfold previousScoresStep
  dsimp only
  rw [if_neg hsc, hp]
  exact dictGet_dictInsert_self _ _ _

/-- C10: a player with a parseable, non-withdrawn current-round score in
the current snapshot and a parseable score in the immediately preceding
snapshot, appearing once in each, is flagged by the scorecard-change
detector if and only if previous − current ≥ 2, and the flag record
carries exactly those scores and their difference. -/
theorem c10_scorecard_change_detector (l1 l2 m1 m2 : List LBRow)
    (rc rp : LBRow) (p : String) (cs ps : Int)
    (hc1 : ∀ row ∈ l1, row.playerId ≠ p)
    (hc2 : ∀ row ∈ l2, row.playerId ≠ p)
    (_hp1 : ∀ row ∈ m1, row.playerId ≠ p)
    (hp2 : ∀ row ∈ m2, row.playerId ≠ p)
    (hrc : rc.playerId = p) (hrp : rp.playerId = p)
    (hst : strLower (rc.status.getD "") ∉ skipStatuses)
    (hcs : parse_round_score (rc.currentRoundScore.getD "") = some cs)
    (hps : parse_round_score (rp.currentRoundScore.getD "") = some ps) :
    ((∃ f ∈ detect_scorecard_changes (l1 ++ rc :: l2) (m1 ++ rp :: m2),
        f.player_id = p) ↔ 2 ≤ ps - cs) ∧
    (∀ f ∈ detect_scorecard_changes (l1 ++ rc :: l2) (m1 ++ rp :: m2),
      f.player_id = p → f = FlagRec.mk p ps cs (ps - cs)) := by
  have hcne : rc.currentRoundScore.getD "" ≠ "" := by
    intro he
    rw [he] at hcs
    simp [parse_round_score] at hcs
  have hpne : rp.currentRoundScore.getD "" ≠ "" := by
    intro he
    rw [he] at hps
    simp [parse_round_score] at hps
  have hcur := buildCurrentScores_lookup l1 l2 rc hc2 hrc hst hcne
  have hprev := buildPreviousScores_lookup m1 m2 rp hp2 hrp hpne
  rw [hcs] at hcur
  rw [hps] at hprev
  have hmemchar : ∀ kv : String × Option Int,
      kv ∈ buildCurrentScores (l1 ++ rc :: l2) → kv.1 = p →
      kv = (p, some cs) := by
    intro kv hkv hk
    unfold buildCurrentScores at hkv
    rw [List.foldl_append, List.foldl_cons] at hkv
    rw [foldl_currentScores_mem_frame l2 _ hc2 hk] at hkv
    rw [show currentScoresStep (l1.foldl currentScoresStep []) rc =
        dictInsert (l1.foldl currentScoresStep []) rc.playerId
          (parse_round_score (rc.currentRoundScore.getD "")) from by
      unfold currentScoresStep
      dsimp only
      rw [if_neg (by rw [not_or]; exact ⟨hst, hcne⟩)]] at hkv
    rw [hrc] at hkv
    have hnot : ∀ w, (p, w) ∉ l1.foldl currentScoresStep [] := by
      intro w hw
      have := (foldl_currentScores_mem_frame l1 [] hc1
        (show ((p, w) : String × Option Int).1 = p from rfl)).mp hw
      cases this
    have := eq_of_mem_dictInsert_self _ _ _ hnot hkv hk
    rw [this]
    rw [show parse_round_score (rc.currentRoundScore.getD "") = some cs
      from hcs]
  have hflag : ∀ f ∈ detect_scorecard_changes (l1 ++ rc :: l2)
      (m1 ++ rp :: m2), f.player_id = p →
      f = FlagRec.mk p ps cs (ps - cs) ∧ 2 ≤ ps - cs := by
    intro f hf hfp
    unfold detect_scorecard_changes at hf
    rw [List.mem_filterMap] at hf
    obtain ⟨kv, hkv, hg⟩ := hf
    have hkvp : kv.1 = p := by
      rcases hkv2 : kv.2 with _ | v
      · rw [hkv2] at hg; cases hg
      · rw [hkv2] at hg
        rcases hd : dictGet (buildPreviousScores (m1 ++ rp :: m2)) kv.1
          with _ | w
        · rw [hd] at hg; cases hg
        · rcases hw : w with _ | pv
          · rw [hd, hw] at hg; cases hg
          · rw [hd, hw] at hg
            dsimp only at hg
            by_cases hge : 2 ≤ pv - v
            · rw [if_pos hge] at hg
              cases Option.some.inj hg
              exact hfp
            · rw [if_neg hge] at hg; cases hg
    have hkveq := hmemchar kv hkv hkvp
    rw [hkveq] at hg
    dsimp only at hg
    rw [show dictGet (buildPreviousScores (m1 ++ rp :: m2)) p =
      some (some ps) from hprev] at hg
    dsimp only at hg
    by_cases hge : 2 ≤ ps - cs
    · rw [if_pos hge] at hg
      exact ⟨(Option.some.inj hg).symm, hge⟩
    · rw [if_neg hge] at hg
      cases hg
  constructor
  · constructor
    · rintro ⟨f, hf, hfp⟩
      exact (hflag f hf hfp).2
    · intro hge
      refine ⟨FlagRec.mk p ps cs (ps - cs), ?_, rfl⟩
      unfold detect_scorecard_changes
      rw [List.mem_filterMap]
      refine ⟨(p, some cs), ?_, ?_⟩
      · unfold buildCurrentScores
        rw [List.foldl_append, List.foldl_cons]
        rw [foldl_currentScores_mem_frame l2 _ hc2 rfl]
        rw [show currentScoresStep (l1.foldl currentScoresStep []) rc =
            dictInsert (l1.foldl currentScoresStep []) rc.playerId
              (parse_round_score (rc.currentRoundScore.getD "")) from by
          unfold currentScoresStep
          dsimp only
          rw [if_neg (by rw [not_or]; exact ⟨hst, hcne⟩)]]
        rw [hrc, hcs]
        exact mem_dictInsert_self _ _ _
      · dsimp only
        rw [hprev]
        dsimp only
        rw [if_pos hge]
  · intro f hf hfp
    exact (hflag f hf hfp).1

/-- Witness instantiating C10: previous "-3" with current "-5" is flagged
(improvement 2); previous "-3" with current "-4" is not (improvement 1). -/
theorem c10_scorecard_change_detector_witness :
    (∃ f ∈ detect_scorecard_changes
        [LBRow.mk "p" (some "3") (some "complete") (some "-5")]
        [LBRow.mk "p" (some "5") (some "complete") (some "-3")],
      f.player_id = "p") ∧
    detect_scorecard_changes
      [LBRow.mk "p" (some "3") (some "complete") (some "-5")]
      [LBRow.mk "p" (some "5") (some "complete") (some "-3")] =
      [FlagRec.mk "p" (-3) (-5) 2] ∧
    ¬(∃ f ∈ detect_scorecard_changes
        [LBRow.mk "p" (some "3") (some "complete") (some "-4")]
        [LBRow.mk "p" (some "5") (some "complete") (some "-3")],
      f.player_id = "p") :=
  ⟨(c10_scorecard_change_detector [] [] [] []
      (LBRow.mk "p" (some "3") (some "complete") (some "-5"))
      (LBRow.mk "p" (some "5") (some "complete") (some "-3")) "p" (-5) (-3)
      (by decide) (by decide) (by decide) (by decide) rfl rfl (by decide)
      (by decide) (by decide)).1.mpr (by decide),
   by decide,
   fun h =>
     absurd ((c10_scorecard_change_detector [] [] [] []
       (LBRow.mk "p" (some "3") (some "complete") (some "-4"))
       (LBRow.mk "p" (some "5") (some "complete") (some "-3")) "p" (-4)
       (-3) (by decide) (by decide) (by decide) (by decide) rfl rfl
       (by decide) (by decide) (by decide)).1.mp h) (by decide)⟩

/-- Witness instantiating C4: with a complete leader the slot scores 15;
with the same leader still playing it scores 12. -/
theorem c4_winner_requires_complete_witness :
    SlotScore.mk "x" (some "1") "complete" 15 ∈
      (calculate_daily_base_points finalEntry finalLB 4).2 ∧
    (SlotScore.mk "x" (some "1") "complete" 15).points =
      (if winnerId finalLB = some "x" then 15 else 12) ∧
    SlotScore.mk "x" (some "1") "playing" 12 ∈
      (calculate_daily_base_points finalEntry finalLBPlaying 4).2 ∧
    (SlotScore.mk "x" (some "1") "playing" 12).points =
      (if winnerId finalLBPlaying = some "x" then 15 else 12) :=
  ⟨by decide,
   (c4_winner_requires_complete finalLB finalEntry).2 _ (by decide)
     (by decide),
   by decide,
   (c4_winner_requires_complete finalLBPlaying finalEntry).2 _ (by decide)
     (by decide)⟩

end Masters
